import Mathlib

/-!
Verification model for the ACEProject prioritization engine and its frontend
call sites.

The backend microservice `moteur-priorisation` (endpoints `POST /prioritize`
and `POST /compare-heuristics`, see `backend/README.md`) ships no source in
this repository; only its request/response types
(`frontend/src/services/api/qualityApi.ts`) and call sites are present.
Following the specification (its section 9 records that the engine is
specified from those call sites), the engine here is modelled from the
spec, sections 3, 4.1, 4.2, 4.3, 6 and 7.  Frontend code that does exist
(`PrioritizedTestPlanPage.tsx`, `mlPipelineService` = `unnamed/part_002`,
`AdvancedDashboardPage` = `unnamed/part_012`) is embedded from the source.

Numeric values are modelled as rationals; every definition is executable.
-/

namespace ACE

/-- Modelled from the spec: input Item of section 3 (the engine source is
missing from the repository).  `id` is a string key; `risk` is clamped to
[0,1] at scoring time; `effort` must be positive (validated); the optional
fields default to the neutral values 1.0, 0.0 and 0.5. -/
structure Item where
  id : String
  risk : ℚ
  effort : ℚ
  criticite : Option ℚ := none
  coverage_gap : Option ℚ := none
  risk_confidence : Option ℚ := none
  module : Option String := none
  deps : List String := []
deriving DecidableEq, Repr

/-- Modelled from the spec: weights record of section 4.1.  `risk` and `crit`
are the primary weights; `effort_weight` and `coverage_weight` are the
optional policy multipliers, defaulting to the neutral 0. -/
structure Weights where
  risk : ℚ
  crit : ℚ
  effort_weight : ℚ := 0
  coverage_weight : ℚ := 0
deriving DecidableEq, Repr

/-- Modelled from the spec: SprintContext of section 3. -/
structure SprintContext where
  capacity : Option ℚ := none
  time_remaining : Option ℚ := none
  max_items : Option Nat := none
  mandatory_ids : List String := []
  excluded_ids : List String := []
deriving DecidableEq, Repr

/-- Request shape of `POST /prioritize`, from
`frontend/src/services/api/qualityApi.ts` (`PrioritizationRequest`). -/
structure PrioritizationRequest where
  repo_id : Option Int := none
  items : List Item
  budget : ℚ
  weights : Weights
  sprint_context : Option SprintContext := none
deriving DecidableEq, Repr

/-- Response plan row, from `qualityApi.ts` (`PrioritizationPlan`). -/
structure PlanEntry where
  rank : Nat
  id : String
  module : Option String
  selected : Bool
  risk : ℚ
  effort : ℚ
  criticite : ℚ
  priority_score : ℚ
  selection_reason : String
deriving DecidableEq, Repr

/-- Response summary, from `qualityApi.ts` (`PrioritizationResponse.summary`). -/
structure PlanSummary where
  budget : ℚ
  effort_selected : ℚ
  items_selected : Nat
  items_total : Nat
deriving DecidableEq, Repr

/-- Response shape of `POST /prioritize`, from `qualityApi.ts`. -/
structure PrioritizationResponse where
  summary : PlanSummary
  plan : List PlanEntry
deriving DecidableEq, Repr

/-- Modelled from the spec: the `ValidationError` taxonomy of section 7. -/
inductive ValidationError where
  | nonPositiveEffort (id : String)
  | negativeWeight
  | duplicateId
deriving DecidableEq, Repr

/-- Clamp a rational into [0,1] (spec 4.1 edge cases: out-of-range `risk`). -/
def clamp01 (q : ℚ) : ℚ := min 1 (max 0 q)

/-- Modelled from the spec: `max_effort_in_batch`, the maximum effort across
the item set, floored at 1 to avoid division by zero (section 4.1). -/
def maxEffortInBatch (items : List Item) : ℚ :=
  max 1 ((items.map Item.effort).foldl max 0)

/-- Modelled from the spec: `confidence_factor = 0.5 + 0.5 * risk_confidence`,
with `risk_confidence` defaulting to 0.5 (sections 3 and 4.1). -/
def confidenceFactor (it : Item) : ℚ :=
  1/2 + 1/2 * it.risk_confidence.getD (1/2)

/-- Modelled from the spec: the scoring formula of section 4.1:
`(base * confidence_factor) + coverage_bonus - effort_weight * normalized_effort`
with `base = risk * w_r + (criticite - 1) * w_c`. -/
def score (w : Weights) (maxE : ℚ) (it : Item) : ℚ :=
  (clamp01 it.risk * w.risk + (it.criticite.getD 1 - 1) * w.crit) * confidenceFactor it
    + it.coverage_gap.getD 0 * w.coverage_weight
    - w.effort_weight * (it.effort / maxE)

/-- Modelled from the spec: ScoredItem of section 3, carrying the computed
`priority_score` and the value density `priority_score / effort`. -/
structure SI where
  item : Item
  score : ℚ
  density : ℚ
deriving DecidableEq, Repr

/-- Build the ScoredItem for an input item. -/
def toSI (w : Weights) (maxE : ℚ) (it : Item) : SI :=
  { item := it, score := score w maxE it, density := score w maxE it / it.effort }

/-- Lexicographic comparator on a (descending primary, ascending id) pair. -/
def pairLe (x y : ℚ × String) : Bool :=
  decide (y.1 < x.1) || (decide (x.1 = y.1) && decide (x.2 ≤ y.2))

/-- Lexicographic comparator on (descending density, descending score,
ascending id), the full-determinism ordering of spec section 4.2 step 4. -/
def tripleLe (x y : ℚ × ℚ × String) : Bool :=
  decide (y.1 < x.1) || (decide (x.1 = y.1) && pairLe x.2 y.2)

/-- Free-item ordering: density descending, ties by score descending, then
by id ascending (spec 4.2 step 4). -/
def FreeLE (a b : SI) : Prop :=
  tripleLe (a.density, a.score, a.item.id) (b.density, b.score, b.item.id) = true

instance : DecidableRel FreeLE := fun a b => by unfold FreeLE; infer_instance

/-- Mandatory-item ordering: score descending, ties by id ascending
(spec 4.2 step 3). -/
def ScoreLE (a b : SI) : Prop :=
  pairLe (a.score, a.item.id) (b.score, b.item.id) = true

instance : DecidableRel ScoreLE := fun a b => by unfold ScoreLE; infer_instance

/-- Plan-entry ordering for final ranking: priority score descending, ties by
id ascending (spec 4.2 step 7). -/
def EntryLE (a b : PlanEntry) : Prop :=
  pairLe (a.priority_score, a.id) (b.priority_score, b.id) = true

instance : DecidableRel EntryLE := fun a b => by unfold EntryLE; infer_instance

/-- Sum of the efforts of a list of scored items. -/
def effortOf (l : List SI) : ℚ := (l.map (fun x => x.item.effort)).sum

/-- Modelled from the spec: the mandatory pre-pass of section 4.2 step 3.
Every mandatory item is force-included; an item whose effort exceeds the
remaining budget is flagged `"mandatory_over_budget"` instead of being
dropped. Returns the tagged items and the accumulated effort. -/
def mandatoryPass (B : ℚ) : List SI → ℚ → List (SI × String) × ℚ
  | [], eff => ([], eff)
  | x :: xs, eff =>
    let reason := if eff + x.item.effort ≤ B then "mandatory" else "mandatory_over_budget"
    let rest := mandatoryPass B xs (eff + x.item.effort)
    ((x, reason) :: rest.1, rest.2)

/-- Whether the `max_items` cap (when present) is reached at count `c`. -/
def capReached (cap : Option Nat) (c : Nat) : Bool :=
  match cap with
  | none => false
  | some m => decide (m ≤ c)

/-- Modelled from the spec: the greedy budget walk of section 4.2 step 5 over
the density-sorted free items.  Returns admitted items, skipped items tagged
with their reason, and the final accumulated effort. -/
def freeWalk (B : ℚ) (cap : Option Nat) :
    List SI → ℚ → Nat → List SI × List (SI × String) × ℚ
  | [], eff, _ => ([], [], eff)
  | x :: xs, eff, count =>
    if capReached cap count then
      let r := freeWalk B cap xs eff count
      (r.1, (x, "max_items_reached") :: r.2.1, r.2.2)
    else if eff + x.item.effort ≤ B then
      let r := freeWalk B cap xs (eff + x.item.effort) (count + 1)
      (x :: r.1, r.2.1, r.2.2)
    else
      let r := freeWalk B cap xs eff count
      (r.1, (x, "budget_exceeded") :: r.2.1, r.2.2)

/-- State of the exchange-correction pass: currently selected free items,
still-unselected free items (with their walk reasons, in walk order), and
items swapped out by a previous exchange. -/
structure ExchangeState where
  sel : List SI
  unsel : List (SI × String)
  out : List SI
deriving DecidableEq, Repr

/-- The lowest-priority-score currently selected item (first on ties). -/
def minSel : List SI → Option SI
  | [] => none
  | x :: xs => some (xs.foldl (fun m y => if y.score < m.score then y else m) x)

/-- First unselected candidate (in rank order) whose score beats the lowest
selected score and whose swap keeps the effort within budget. -/
def pickCand (B : ℚ) (smin : SI) (curEff : ℚ) (unsel : List (SI × String)) :
    Option (SI × String) :=
  unsel.find? fun u =>
    decide (smin.score < u.1.score) &&
      decide (curEff - smin.item.effort + u.1.item.effort ≤ B)

/-- Modelled from the spec: one local exchange step of section 4.2 step 6:
if an unselected item has a higher priority score than the lowest-score
selected item and the swap keeps `effort_selected ≤ budget`, swap them. -/
def exchangeStep (B baseEff : ℚ) (st : ExchangeState) : ExchangeState :=
  match minSel st.sel with
  | none => st
  | some m =>
    match pickCand B m (baseEff + effortOf st.sel) st.unsel with
    | none => st
    | some u =>
      { sel := u.1 :: st.sel.erase m
        unsel := st.unsel.erase u
        out := m :: st.out }

/-- Modelled from the spec: the exchange pass repeated up to the fixed
iteration cap (the item count, section 4.2 step 6). -/
def exchangeLoop (B baseEff : ℚ) : Nat → ExchangeState → ExchangeState
  | 0, st => st
  | n + 1, st => exchangeLoop B baseEff n (exchangeStep B baseEff st)

/-- Exchange invariant at budget `B` (verification artifact): any unselected
item whose score beats a selected item's and whose swap would stay within
budget costs at least as much effort as that selected item.  It holds after
the greedy walk and is preserved by exchange steps, and makes every
performed swap non-decreasing in selected effort. -/
def RInv (B : ℚ) (st : ExchangeState) : Prop :=
  ∀ x ∈ st.sel, ∀ u ∈ st.unsel,
    x.score < u.1.score →
    effortOf st.sel - x.item.effort + u.1.item.effort ≤ B →
    x.item.effort ≤ u.1.item.effort

/-- Combined exchange-state invariant over the walked list `L`
(verification artifact): the state partitions `L`, the unselected tail is
still density-sorted, and the swap invariant holds. -/
def Inv (B : ℚ) (L : List SI) (st : ExchangeState) : Prop :=
  (st.sel ++ (st.unsel.map Prod.fst) ++ st.out).Perm L ∧
  (st.unsel.map Prod.fst).Pairwise (fun a b => b.density ≤ a.density) ∧
  RInv B st

/-- Build a plan row (rank assigned later) from a scored item. -/
def mkEntry (selected : Bool) (reason : String) (x : SI) : PlanEntry :=
  { rank := 0
    id := x.item.id
    module := x.item.module
    selected := selected
    risk := x.item.risk
    effort := x.item.effort
    criticite := x.item.criticite.getD 1
    priority_score := x.score
    selection_reason := reason }

/-- Plan row for an excluded item; its score is never computed
(spec 4.2 step 2), reported as 0. -/
def mkExcludedEntry (it : Item) : PlanEntry :=
  { rank := 0
    id := it.id
    module := it.module
    selected := false
    risk := it.risk
    effort := it.effort
    criticite := it.criticite.getD 1
    priority_score := 0
    selection_reason := "excluded" }

/-- Assign dense 1-based ranks in list order (spec 4.2 step 7). -/
def assignRanks : Nat → List PlanEntry → List PlanEntry
  | _, [] => []
  | n, e :: es => { e with rank := n } :: assignRanks (n + 1) es

/-- The effective budget: the sprint-context capacity overrides the request
budget when present (spec section 3, SprintContext). -/
def effectiveBudget (r : PrioritizationRequest) : ℚ :=
  match r.sprint_context with
  | none => r.budget
  | some ctx => ctx.capacity.getD r.budget

/-- The sprint context of a request, defaulting to the empty context. -/
def ctxOf (r : PrioritizationRequest) : SprintContext :=
  r.sprint_context.getD {}

/-- The excluded partition of the request's items (spec 4.2 step 1). -/
def excludedPart (r : PrioritizationRequest) : List Item :=
  r.items.filter fun it => (ctxOf r).excluded_ids.contains it.id

/-- The non-excluded items, in input order. -/
def nonExcludedPart (r : PrioritizationRequest) : List Item :=
  r.items.filter fun it => !(ctxOf r).excluded_ids.contains it.id

/-- The mandatory partition (non-excluded items listed in `mandatory_ids`). -/
def mandPart (r : PrioritizationRequest) : List Item :=
  (nonExcludedPart r).filter fun it => (ctxOf r).mandatory_ids.contains it.id

/-- The free partition (neither excluded nor mandatory). -/
def freePart (r : PrioritizationRequest) : List Item :=
  (nonExcludedPart r).filter fun it => !(ctxOf r).mandatory_ids.contains it.id

/-- Mandatory items scored and sorted by score descending (spec 4.2 step 3). -/
def mandSorted (r : PrioritizationRequest) : List SI :=
  List.insertionSort ScoreLE
    ((mandPart r).map (toSI r.weights (maxEffortInBatch r.items)))

/-- Outcome of the mandatory pre-pass. -/
def mandPass (r : PrioritizationRequest) : List (SI × String) × ℚ :=
  mandatoryPass (effectiveBudget r) (mandSorted r) 0

/-- Free items scored and sorted by density descending (spec 4.2 step 4). -/
def freeSorted (r : PrioritizationRequest) : List SI :=
  List.insertionSort FreeLE
    ((freePart r).map (toSI r.weights (maxEffortInBatch r.items)))

/-- Outcome of the greedy budget walk over the sorted free items. -/
def walkOf (r : PrioritizationRequest) : List SI × List (SI × String) × ℚ :=
  freeWalk (effectiveBudget r) (ctxOf r).max_items (freeSorted r)
    (mandPass r).2 (mandSorted r).length

/-- Outcome of the exchange-correction pass. -/
def exchangeOf (r : PrioritizationRequest) : ExchangeState :=
  exchangeLoop (effectiveBudget r) (mandPass r).2 (freeSorted r).length
    { sel := (walkOf r).1, unsel := (walkOf r).2.1, out := [] }

/-- Modelled from the spec: the full Selector of section 4.2 on an
already-validated request: partition, score, mandatory pre-pass, greedy
density walk, exchange correction, ranking and summary. -/
def computePlan (r : PrioritizationRequest) : PrioritizationResponse :=
  let st := exchangeOf r
  let selEntries := (mandPass r).1.map (fun p => mkEntry true p.2 p.1)
    ++ st.sel.map (mkEntry true "selected")
  let unselEntries := st.unsel.map (fun p => mkEntry false p.2 p.1)
    ++ st.out.map (mkEntry false "budget_exceeded")
  let exclEntries := (excludedPart r).map mkExcludedEntry
  let plan := assignRanks 1
    (List.insertionSort EntryLE selEntries
      ++ List.insertionSort EntryLE unselEntries
      ++ List.insertionSort EntryLE exclEntries)
  { summary :=
      { budget := effectiveBudget r
        effort_selected := (mandPass r).2 + effortOf st.sel
        items_selected := (mandPass r).1.length + st.sel.length
        items_total := r.items.length }
    plan := plan }

/-- Duplicate-free check on a list of ids. -/
def dupFree : List String → Bool
  | [] => true
  | x :: xs => !(xs.contains x) && dupFree xs

/-- Modelled from the spec: the `POST /prioritize` engine entry point.
Validation (section 7) rejects non-positive effort, negative weights and
duplicate ids before any scoring; valid requests always yield a plan. -/
def prioritize (r : PrioritizationRequest) :
    Except ValidationError PrioritizationResponse :=
  match r.items.find? fun it => decide (it.effort ≤ 0) with
  | some it => .error (.nonPositiveEffort it.id)
  | none =>
    if r.weights.risk < 0 ∨ r.weights.crit < 0 then .error .negativeWeight
    else if dupFree (r.items.map Item.id) then .ok (computePlan r)
    else .error .duplicateId

/-! ### Heuristic comparator (spec section 4.3) -/

/-- Comparator row, from `qualityApi.ts` callers (`HeuristicComparison` in
`AdvancedDashboardPage`). -/
structure HeuristicResult where
  heuristic : String
  items_selected : Nat
  effort_used : ℚ
  total_risk_covered : ℚ
  efficiency : ℚ
deriving DecidableEq, Repr

/-- Response shape of `POST /compare-heuristics`. -/
structure ComparatorResponse where
  comparisons : List HeuristicResult
deriving DecidableEq, Repr

/-- Modelled from the spec: run the Selector under a given weight
configuration and report the HeuristicResult of section 3 (`efficiency` is
`total_risk_covered / effort_used`, 0 when `effort_used = 0`). -/
def heuristicRun (name : String) (items : List Item) (budget : ℚ)
    (w : Weights) : HeuristicResult :=
  let resp := computePlan { items := items, budget := budget, weights := w }
  let selEntries := resp.plan.filter fun e => e.selected
  let effortUsed := (selEntries.map PlanEntry.effort).sum
  let riskCov := (selEntries.map PlanEntry.risk).sum
  { heuristic := name
    items_selected := resp.summary.items_selected
    effort_used := effortUsed
    total_risk_covered := riskCov
    efficiency := if effortUsed = 0 then 0 else riskCov / effortUsed }

/-- One step of a 32-bit linear congruential generator (fixed constants),
the seeded deterministic generator for the random baseline. -/
def lcgNext (s : Nat) : Nat := (1664525 * s + 1013904223) % 4294967296

/-- A stream of `n` pseudo-random keys from the seed. -/
def lcgStream : Nat → Nat → List Nat
  | _, 0 => []
  | seed, n + 1 => lcgNext seed :: lcgStream (lcgNext seed) n

/-- Ordering of items by attached pseudo-random key. -/
def KeyLE (a b : Item × Nat) : Prop := a.2 ≤ b.2

instance : DecidableRel KeyLE := fun a b => by unfold KeyLE; infer_instance

/-- Modelled from the spec: the seeded shuffle of the random baseline
(section 4.3): items are paired with keys from the seeded generator and
sorted by key, a deterministic permutation. -/
def seededShuffle (seed : Nat) (l : List Item) : List Item :=
  (List.insertionSort KeyLE (l.zip (lcgStream seed l.length))).map Prod.fst

/-- Plain greedy budget walk with no scoring, for the random baseline. -/
def plainWalk (B : ℚ) : List Item → ℚ → List Item × ℚ
  | [], eff => ([], eff)
  | x :: xs, eff =>
    if eff + x.effort ≤ B then
      let r := plainWalk B xs (eff + x.effort)
      (x :: r.1, r.2)
    else
      let r := plainWalk B xs eff
      (r.1, r.2)

/-- Modelled from the spec: the `"random"` baseline of section 4.3 — shuffle
with a fixed seed, then greedily admit in that order until the budget is
exhausted, no scoring. -/
def randomBaseline (items : List Item) (budget : ℚ) : HeuristicResult :=
  let shuffled := seededShuffle 42 items
  let walk := plainWalk budget shuffled 0
  let riskCov := (walk.1.map Item.risk).sum
  { heuristic := "random"
    items_selected := walk.1.length
    effort_used := walk.2
    total_risk_covered := riskCov
    efficiency := if walk.2 = 0 then 0 else riskCov / walk.2 }

/-- Modelled from the spec: the `POST /compare-heuristics` endpoint
(section 4.3): the four strategies are computed independently and merged
into a fixed-order list (section 5). -/
def compareHeuristics (items : List Item) (budget : ℚ) (w : Weights) :
    ComparatorResponse :=
  { comparisons :=
      [ heuristicRun "effort_aware" items budget w
      , heuristicRun "risk_only" items budget { risk := 1, crit := 0 }
      , heuristicRun "coverage_only" items budget
          { risk := 0, crit := 0, coverage_weight := 1 }
      , randomBaseline items budget ] }

/-! ### Frontend embeddings (code present under src) -/

/-- Result of `POST /api/repos/:id/collect`, from `repoService`
(`CollectionResult`), reduced to the field the pipeline reads. -/
structure CollectionResult where
  commits_stored : Nat
deriving DecidableEq, Repr

/-- Result of `POST /features/generate`, from `pretraitementService`,
reduced to the fields the pipeline reads. -/
structure FeatureGenerationResponse where
  dataset_id : Nat
  n_features : Nat
deriving DecidableEq, Repr

/-- Result of `POST /train/auto`, from `mlPipelineService`
(`AutoTuneResponse`), reduced to the fields the pipeline reads. -/
structure AutoTuneResponse where
  model_id : String
  accuracy : ℚ
deriving DecidableEq, Repr

/-- Result of the complete pipeline, from `mlPipelineService`
(`CompletePipelineResponse`): `prioritization` is optional. -/
structure CompletePipelineResponse where
  collection : CollectionResult
  features : FeatureGenerationResponse
  training : AutoTuneResponse
  prioritization : Option PrioritizationResponse
deriving DecidableEq, Repr

/-- Control flow of `executeCompletePipeline` (`src/unnamed/part_002`,
lines 80-179): the four service calls are passed as their outcomes.  The
first three steps run inside the outer try whose catch rethrows; the
`/prioritize` call runs inside an inner try whose catch returns the response
without the `prioritization` field. -/
def executeCompletePipeline
    (collection : Except String CollectionResult)
    (features : Except String FeatureGenerationResponse)
    (training : Except String AutoTuneResponse)
    (prioritization : Except String PrioritizationResponse) :
    Except String CompletePipelineResponse :=
  match collection with
  | .error e => .error e
  | .ok c =>
    match features with
    | .error e => .error e
    | .ok f =>
      match training with
      | .error e => .error e
      | .ok t =>
        match prioritization with
        | .ok p => .ok ⟨c, f, t, some p⟩
        | .error _ => .ok ⟨c, f, t, none⟩

/-- One static-analysis metric record as read by `handlePrioritize`
(`PrioritizedTestPlanPage.tsx`), reduced to the fields it uses. -/
structure MetricRecord where
  filepath : Option String := none
  loc : Option ℚ := none
  cbo : Option ℚ := none
deriving DecidableEq, Repr

/-- One ML prediction record as read by `handlePrioritize`. -/
structure Prediction where
  id : Option String := none
  risk_score : Option ℚ := none
  probability : Option ℚ := none
deriving DecidableEq, Repr

/-- JavaScript `x || d` on an optional number: both `undefined` and `0` fall
back to the default. -/
def jsOr (v : Option ℚ) (d : ℚ) : ℚ :=
  match v with
  | none => d
  | some x => if x = 0 then d else x

/-- Item built from a metric record by `handlePrioritize`
(`PrioritizedTestPlanPage.tsx` lines 211-226): `risk` is a placeholder 0.5,
`effort = round(loc * 0.5)`, `criticite` keyed off `cbo` thresholds. -/
def metricToItem (m : MetricRecord) : Item :=
  let loc := jsOr m.loc 100
  let cbo := jsOr m.cbo 0
  let segments := (m.filepath.getD "unknown").splitOn "/"
  { id := (segments.getLast?).getD "unknown"
    risk := 1/2
    effort := (round (loc * (1/2)) : ℤ)
    criticite := some (if 10 < cbo then 3/2 else if 5 < cbo then 6/5 else 1)
    module := (segments.dropLast.getLast?).orElse fun _ => some "default" }

/-- Risk override from a prediction: `pred?.risk_score || pred?.probability
|| it.risk` with JavaScript falsiness. -/
def updatedRisk (it : Item) (p : Option Prediction) : ℚ :=
  match p with
  | none => it.risk
  | some pr => jsOr pr.risk_score (jsOr pr.probability it.risk)

/-- Prediction lookup `predictions[idx] || predictions.find(p => p.id ===
it.id)` of `handlePrioritize` step 2. -/
def lookupPred (preds : List Prediction) (idx : Nat) (id : String) :
    Option Prediction :=
  (preds.get? idx).orElse fun _ => preds.find? fun p => p.id == some id

/-- Apply ML predictions to the metric-derived items (step 2 of
`handlePrioritize`). -/
def applyPreds : Nat → List Item → List Prediction → List Item
  | _, [], _ => []
  | i, it :: its, preds =>
    { it with risk := updatedRisk it (lookupPred preds i it.id) }
      :: applyPreds (i + 1) its preds

/-- Item built from a dataset-level prediction (the fallback of
`handlePrioritize` step 2 when no metrics are in base). -/
def predToItem (idx : Nat) (p : Prediction) : Item :=
  { id := p.id.getD ("file_" ++ toString idx)
    risk := jsOr p.risk_score (1/2)
    effort := 100
    criticite := some 1
    module := some "default" }

/-- Map with index for the dataset-prediction fallback. -/
def predsToItems : Nat → List Prediction → List Item
  | _, [] => []
  | i, p :: ps => predToItem i p :: predsToItems (i + 1) ps

/-- The seven demonstration items synthesized by `handlePrioritize`
(`PrioritizedTestPlanPage.tsx` lines 283-293) when no real items were
obtained. -/
def demoItems (repoName : String) : List Item :=
  [ { id := repoName ++ "/AuthService.java", risk := 85/100, effort := 180
      criticite := some (3/2), module := some "security" }
  , { id := repoName ++ "/PaymentController.java", risk := 78/100, effort := 220
      criticite := some (9/5), module := some "payment" }
  , { id := repoName ++ "/UserRepository.java", risk := 65/100, effort := 120
      criticite := some (6/5), module := some "data" }
  , { id := repoName ++ "/OrderService.java", risk := 58/100, effort := 150
      criticite := some (13/10), module := some "orders" }
  , { id := repoName ++ "/NotificationHelper.java", risk := 42/100, effort := 80
      criticite := some (9/10), module := some "utils" }
  , { id := repoName ++ "/ConfigLoader.java", risk := 35/100, effort := 60
      criticite := some (7/10), module := some "config" }
  , { id := repoName ++ "/LoggingAspect.java", risk := 28/100, effort := 45
      criticite := some (1/2), module := some "logging" } ]

/-- Item assembly of `handlePrioritize` (`PrioritizedTestPlanPage.tsx`
lines 197-293).  `metrics` is `none` when the static-analysis service call
failed and `some []` when it returned no records; `preds` and `dsPreds` are
the per-item and dataset-level prediction outcomes.  Step 3 replaces an
empty result with the synthesized demonstration items. -/
def assembleItems (repoName : String) (metrics : Option (List MetricRecord))
    (preds : Option (List Prediction)) (dsPreds : Option (List Prediction)) :
    List Item :=
  let items0 : List Item :=
    match metrics with
    | some ms => ms.map metricToItem
    | none => []
  let items1 : List Item :=
    if items0.isEmpty then
      match dsPreds with
      | some ps => predsToItems 0 ps
      | none => []
    else
      match preds with
      | some ps => if ps.isEmpty then items0 else applyPreds 0 items0 ps
      | none => items0
  if items1.isEmpty then demoItems repoName else items1

/-- The request `handlePrioritize` posts to `/prioritize`
(`PrioritizedTestPlanPage.tsx` lines 296-304): fixed weights
`{risk: 1.0, crit: 0.5}`. -/
def handlePrioritizeRequest (repoId : Int) (budget : ℚ) (items : List Item) :
    PrioritizationRequest :=
  { repo_id := some repoId, items := items, budget := budget
    weights := { risk := 1, crit := 1/2 } }

/-- JavaScript IEEE-754 number outcomes relevant to the embedded summary
arithmetic: a finite value, the two infinities, or NaN. -/
inductive JsNum where
  | num (q : ℚ)
  | posInf
  | negInf
  | nan
deriving DecidableEq, Repr

/-- JavaScript division on finite operands: `x / 0` is NaN for `x = 0` and a
signed infinity otherwise; non-finite operands are not produced by the
embedded expressions and map to NaN. -/
def jsDiv : JsNum → JsNum → JsNum
  | .num x, .num y =>
    if y = 0 then (if x = 0 then .nan else if 0 < x then .posInf else .negInf)
    else .num (x / y)
  | _, _ => .nan

/-- JavaScript multiplication by a finite constant. -/
def jsMulConst (a : JsNum) (c : ℚ) : JsNum :=
  match a with
  | .num x => .num (x * c)
  | .posInf => if 0 < c then .posInf else if c < 0 then .negInf else .nan
  | .negInf => if 0 < c then .negInf else if c < 0 then .posInf else .nan
  | .nan => .nan

/-- The budget-utilization percentage of the result page
(`PrioritizedTestPlanPage.tsx` line 427):
`(result.summary.effort_selected / result.summary.budget) * 100`, with no
guard on a zero budget. -/
def budgetUtilizationPct (s : PlanSummary) : JsNum :=
  jsMulConst (jsDiv (.num s.effort_selected) (.num s.budget)) 100

/-- The risk-coverage percentage of the result page
(`PrioritizedTestPlanPage.tsx` lines 433-434): selected risk sum divided by
total risk sum, times 100, with no guard on an empty or zero-risk plan. -/
def riskCoveragePct (plan : List PlanEntry) : JsNum :=
  jsMulConst
    (jsDiv (.num (((plan.filter fun p => p.selected).map PlanEntry.risk).sum))
      (.num ((plan.map PlanEntry.risk).sum))) 100

/-- Validation facts recoverable from a successful prioritization call. -/
def ValidationFacts (r : PrioritizationRequest) : Prop :=
  (∀ it ∈ r.items, 0 < it.effort) ∧ 0 ≤ r.weights.risk ∧ 0 ≤ r.weights.crit ∧
    (r.items.map Item.id).Nodup

/-! ### Concrete instances used by the claim theorems -/

/-- Scenario A item `a` (spec section 8). -/
def itemA : Item := { id := "a", risk := 9/10, effort := 100 }

/-- Scenario A item `b` (spec section 8). -/
def itemB : Item := { id := "b", risk := 1/2, effort := 50 }

/-- Scenario A request: two items, budget 100, weights `{risk:1, crit:0}`. -/
def reqA : PrioritizationRequest :=
  { items := [itemA, itemB], budget := 100, weights := { risk := 1, crit := 0 } }

/-- Request with two mandatory items that each fit the budget individually
but not together: budget 100, efforts 60 and 60. -/
def reqTwoMandatory : PrioritizationRequest :=
  { items :=
      [ { id := "x", risk := 3/5, effort := 60 }
      , { id := "y", risk := 1/2, effort := 60 } ]
    budget := 100
    weights := { risk := 1, crit := 0 }
    sprint_context := some { mandatory_ids := ["x", "y"] } }

/-- Scenario D request (spec section 8): one mandatory item of effort 500
against budget 100. -/
def reqScenarioD : PrioritizationRequest :=
  { items := [ { id := "x", risk := 1/2, effort := 500 } ]
    budget := 100
    weights := { risk := 1, crit := 0 }
    sprint_context := some { mandatory_ids := ["x"] } }

/-- A three-item request family over a varying budget on which plan size and
selected effort both drop when the budget grows (criticite below 1 with a
positive crit weight makes the priority scores negative). -/
def reqNegScores (B : ℚ) : PrioritizationRequest :=
  { items :=
      [ { id := "i0", risk := 1/20, effort := 2, criticite := some (1/2) }
      , { id := "i1", risk := 3/20, effort := 12, criticite := some (3/10) }
      , { id := "i2", risk := 9/20, effort := 2, criticite := some (1/10) } ]
    budget := B
    weights := { risk := 3/2, crit := 2 } }

/-- A three-item request family over a varying budget with nonnegative
scores, on which the plan size still drops when the budget grows from 9 to
10 while the selected effort does not. -/
def reqPosScores (B : ℚ) : PrioritizationRequest :=
  { items :=
      [ { id := "x1", risk := 1, effort := 10 }
      , { id := "x2", risk := 14/100, effort := 2 }
      , { id := "x3", risk := 1/5, effort := 3 } ]
    budget := B
    weights := { risk := 1, crit := 0 } }

end ACE

namespace ACE

/-! ### Order and list helper lemmas -/

/-- `pairLe` is total. -/
lemma pairLe_total (x y : ℚ × String) : pairLe x y = true ∨ pairLe y x = true := by
  unfold pairLe
  rcases lt_trichotomy x.1 y.1 with h | h | h
  · right; simp [h]
  · rcases le_total x.2 y.2 with h2 | h2
    · left; simp [h, h2]
    · right; simp [h.symm, h2]
  · left; simp [h]

/-- `pairLe` is transitive. -/
lemma pairLe_trans {x y z : ℚ × String} (hxy : pairLe x y = true)
    (hyz : pairLe y z = true) : pairLe x z = true := by
  unfold pairLe at *
  simp only [Bool.or_eq_true, Bool.and_eq_true, decide_eq_true_eq] at *
  rcases hxy with h1 | ⟨h1, h1s⟩ <;> rcases hyz with h2 | ⟨h2, h2s⟩
  · exact Or.inl (h2.trans h1)
  · exact Or.inl (h2 ▸ h1)
  · exact Or.inl (h1 ▸ h2)
  · exact Or.inr ⟨h1.trans h2, h1s.trans h2s⟩

/-- `tripleLe` is total. -/
lemma tripleLe_total (x y : ℚ × ℚ × String) :
    tripleLe x y = true ∨ tripleLe y x = true := by
  unfold tripleLe
  rcases lt_trichotomy x.1 y.1 with h | h | h
  · right; simp [h]
  · rcases pairLe_total x.2 y.2 with h2 | h2
    · left; simp [h, h2]
    · right; simp [h.symm, h2]
  · left; simp [h]

/-- `tripleLe` is transitive. -/
lemma tripleLe_trans {x y z : ℚ × ℚ × String} (hxy : tripleLe x y = true)
    (hyz : tripleLe y z = true) : tripleLe x z = true := by
  unfold tripleLe at *
  simp only [Bool.or_eq_true, Bool.and_eq_true, decide_eq_true_eq] at *
  rcases hxy with h1 | ⟨h1, h1s⟩ <;> rcases hyz with h2 | ⟨h2, h2s⟩
  · exact Or.inl (h2.trans h1)
  · exact Or.inl (h2 ▸ h1)
  · exact Or.inl (h1 ▸ h2)
  · exact Or.inr ⟨h1.trans h2, pairLe_trans h1s h2s⟩

instance : IsTotal SI FreeLE := ⟨fun a b => tripleLe_total _ _⟩

instance : IsTrans SI FreeLE := ⟨fun _ _ _ => tripleLe_trans⟩

instance : IsTotal SI ScoreLE := ⟨fun a b => pairLe_total _ _⟩

instance : IsTrans SI ScoreLE := ⟨fun _ _ _ => pairLe_trans⟩

instance : IsTotal PlanEntry EntryLE := ⟨fun a b => pairLe_total _ _⟩

instance : IsTrans PlanEntry EntryLE := ⟨fun _ _ _ => pairLe_trans⟩

/-- The free ordering implies non-increasing density. -/
lemma density_ge_of_freeLE {a b : SI} (h : FreeLE a b) : b.density ≤ a.density := by
  unfold FreeLE tripleLe at h
  simp only [Bool.or_eq_true, Bool.and_eq_true, decide_eq_true_eq] at h
  rcases h with h | ⟨h, _⟩
  · exact h.le
  · exact h.ge

/-- The density-sorted free list is pairwise non-increasing in density. -/
lemma freeSorted_density_pairwise (r : PrioritizationRequest) :
    (freeSorted r).Pairwise (fun a b => b.density ≤ a.density) := by
  have h := List.sorted_insertionSort FreeLE
    ((freePart r).map (toSI r.weights (maxEffortInBatch r.items)))
  exact List.Pairwise.imp (fun hab => density_ge_of_freeLE hab) h

/-- Sum-of-efforts distributes over cons. -/
lemma effortOf_cons (x : SI) (l : List SI) :
    effortOf (x :: l) = x.item.effort + effortOf l := by
  simp [effortOf]

/-- Sum-of-efforts of `erase`. -/
lemma effortOf_erase {x : SI} : ∀ {l : List SI}, x ∈ l →
    effortOf (l.erase x) = effortOf l - x.item.effort := by
  intro l
  induction l with
  | nil => simp
  | cons a t ih =>
    intro hx
    by_cases hax : a = x
    · subst hax
      simp [List.erase_cons_head, effortOf_cons]
    · have hxt : x ∈ t := by
        rcases List.mem_cons.1 hx with h | h
        · exact absurd h.symm hax
        · exact h
      have hbeq : (a == x) = false := by simp [hax]
      rw [List.erase_cons]
      simp only [hbeq, Bool.false_eq_true, if_false, effortOf_cons]
      rw [ih hxt]
      ring

/-- Sum-of-efforts is nonnegative when all efforts are positive. -/
lemma effortOf_nonneg {l : List SI} (h : ∀ si ∈ l, 0 < si.item.effort) :
    0 ≤ effortOf l := by
  induction l with
  | nil => simp [effortOf]
  | cons a t ih =>
    rw [effortOf_cons]
    have := h a (List.mem_cons_self a t)
    have := ih fun si hsi => h si (List.mem_cons_of_mem a hsi)
    linarith

/-- An element's effort is at most the total when all efforts are positive. -/
lemma effort_le_effortOf {x : SI} : ∀ {l : List SI}, x ∈ l →
    (∀ si ∈ l, 0 < si.item.effort) → x.item.effort ≤ effortOf l := by
  intro l
  induction l with
  | nil => intro hx; cases hx
  | cons a t ih =>
    intro hx h
    rw [effortOf_cons]
    rcases List.mem_cons.1 hx with hxa | hxt
    · have := effortOf_nonneg fun si hsi => h si (List.mem_cons_of_mem a hsi)
      rw [hxa]
      linarith
    · have := h a (List.mem_cons_self a t)
      have := ih hxt fun si hsi => h si (List.mem_cons_of_mem a hsi)
      linarith

/-- `List.find?` splits the list at its hit, with all earlier elements
failing the predicate. -/
lemma find?_split {α : Type} {p : α → Bool} :
    ∀ {l : List α} {a : α}, l.find? p = some a →
      ∃ l₁ l₂, l = l₁ ++ a :: l₂ ∧ ∀ b ∈ l₁, p b = false := by
  intro l
  induction l with
  | nil => intro a h; simp [List.find?] at h
  | cons x t ih =>
    intro a h
    rw [List.find?_cons] at h
    by_cases hx : p x
    · simp only [hx, cond_true, Option.some.injEq] at h
      exact ⟨[], t, by simp [h], by simp⟩
    · simp only [Bool.not_eq_true] at hx
      simp only [hx, cond_false] at h
      obtain ⟨l₁, l₂, heq, hall⟩ := ih h
      refine ⟨x :: l₁, l₂, by simp [heq], ?_⟩
      intro b hb
      rcases List.mem_cons.1 hb with rfl | hb2
      · exact hx
      · exact hall b hb2

/-- A stronger predicate's `find?` agrees with a weaker one's when the
weaker one's hit already satisfies the stronger predicate. -/
lemma find?_agree {α : Type} {p q : α → Bool}
    (himp : ∀ x, p x = true → q x = true) :
    ∀ {l : List α} {a : α}, l.find? q = some a → p a = true →
      l.find? p = some a := by
  intro l
  induction l with
  | nil => intro a h; simp [List.find?] at h
  | cons x t ih =>
    intro a hq hpa
    rw [List.find?_cons] at hq ⊢
    by_cases hqx : q x
    · simp only [hqx, cond_true, Option.some.injEq] at hq
      subst hq
      simp [hpa]
    · simp only [Bool.not_eq_true] at hqx
      simp only [hqx, cond_false] at hq
      have hpx : p x = false := by
        by_contra hc
        simp only [Bool.not_eq_false] at hc
        rw [himp x hc] at hqx
        cases hqx
      simp only [hpx, cond_false]
      exact ih hq hpa

/-! ### Mandatory-pass lemmas -/

/-- The mandatory pre-pass keeps the items, in order. -/
lemma mandatoryPass_map_fst (B : ℚ) :
    ∀ (l : List SI) (eff : ℚ), ((mandatoryPass B l eff).1).map Prod.fst = l := by
  intro l
  induction l with
  | nil => intro eff; simp [mandatoryPass]
  | cons x t ih => intro eff; simp [mandatoryPass, ih]

/-- The mandatory pre-pass accumulates the total effort of its list. -/
lemma mandatoryPass_effort (B : ℚ) :
    ∀ (l : List SI) (eff : ℚ),
      (mandatoryPass B l eff).2 = eff + effortOf l := by
  intro l
  induction l with
  | nil => intro eff; simp [mandatoryPass, effortOf]
  | cons x t ih =>
    intro eff
    simp only [mandatoryPass, ih, effortOf_cons]
    ring

/-- If no mandatory item was flagged over budget, the accumulated mandatory
effort stays within the budget. -/
lemma mandatoryPass_le {B : ℚ} :
    ∀ {l : List SI} {eff : ℚ},
      (∀ p ∈ (mandatoryPass B l eff).1, p.2 ≠ "mandatory_over_budget") →
      eff ≤ B → (mandatoryPass B l eff).2 ≤ B := by
  intro l
  induction l with
  | nil => intro eff _ he; simpa [mandatoryPass] using he
  | cons x t ih =>
    intro eff hflag he
    have hx : eff + x.item.effort ≤ B := by
      by_contra hc
      have : ((x, "mandatory_over_budget") : SI × String) ∈
          (mandatoryPass B (x :: t) eff).1 := by
        simp [mandatoryPass, if_neg hc]
      exact hflag _ this rfl
    have hrest : ∀ p ∈ (mandatoryPass B t (eff + x.item.effort)).1,
        p.2 ≠ "mandatory_over_budget" := by
      intro p hp
      apply hflag
      simp [mandatoryPass]
      right
      exact hp
    simpa [mandatoryPass] using ih hrest hx

/-- A mandatory item whose effort alone exceeds the budget is flagged
`"mandatory_over_budget"` (spec 4.2 step 3), provided the accumulated effort
so far is nonnegative. -/
lemma mandatoryPass_flag {B : ℚ} :
    ∀ {l : List SI} {eff : ℚ}, 0 ≤ eff →
      (∀ si ∈ l, 0 < si.item.effort) →
      ∀ x ∈ l, B < x.item.effort →
        (x, "mandatory_over_budget") ∈ (mandatoryPass B l eff).1 := by
  intro l
  induction l with
  | nil => intro eff _ _ x hx; cases hx
  | cons y t ih =>
    intro eff he hpos x hx hB
    rcases List.mem_cons.1 hx with rfl | hxt
    · have : ¬ (eff + x.item.effort ≤ B) := by linarith
      simp [mandatoryPass, if_neg this]
    · have hy : 0 < y.item.effort := hpos y (List.mem_cons_self y t)
      have := ih (by linarith : (0:ℚ) ≤ eff + y.item.effort)
        (fun si hsi => hpos si (List.mem_cons_of_mem y hsi)) x hxt hB
      simp [mandatoryPass]
      right
      exact this

/-! ### Greedy-walk lemmas -/

/-- The walk partitions its input: admitted plus skipped is a permutation of
the list. -/
lemma freeWalk_perm (B : ℚ) (cap : Option Nat) :
    ∀ (l : List SI) (eff : ℚ) (c : Nat),
      ((freeWalk B cap l eff c).1
        ++ ((freeWalk B cap l eff c).2.1).map Prod.fst).Perm l := by
  intro l
  induction l with
  | nil => intro eff c; simp [freeWalk]
  | cons x t ih =>
    intro eff c
    simp only [freeWalk]
    by_cases hcap : capReached cap c
    · simp only [hcap, if_true, List.map_cons]
      exact (List.perm_middle.trans ((ih eff c).cons x))
    · simp only [hcap, Bool.false_eq_true, if_false]
      by_cases hb : eff + x.item.effort ≤ B
      · simp only [hb, if_true, List.cons_append]
        exact (ih (eff + x.item.effort) (c + 1)).cons x
      · simp only [hb, if_false, List.map_cons]
        exact (List.perm_middle.trans ((ih eff c).cons x))

/-- The walk's final effort is the initial effort plus the admitted total. -/
lemma freeWalk_effort_acc (B : ℚ) (cap : Option Nat) :
    ∀ (l : List SI) (eff : ℚ) (c : Nat),
      (freeWalk B cap l eff c).2.2 = eff + effortOf (freeWalk B cap l eff c).1 := by
  intro l
  induction l with
  | nil => intro eff c; simp [freeWalk, effortOf]
  | cons x t ih =>
    intro eff c
    simp only [freeWalk]
    by_cases hcap : capReached cap c
    · simp only [hcap, if_true]; exact ih eff c
    · simp only [hcap, Bool.false_eq_true, if_false]
      by_cases hb : eff + x.item.effort ≤ B
      · simp only [hb, if_true, effortOf_cons]
        rw [ih (eff + x.item.effort) (c + 1)]
        ring
      · simp only [hb, if_false]; exact ih eff c

/-- The walk never exceeds the budget once within it. -/
lemma freeWalk_effort_le {B : ℚ} {cap : Option Nat} :
    ∀ {l : List SI} {eff : ℚ} {c : Nat}, eff ≤ B →
      (freeWalk B cap l eff c).2.2 ≤ B := by
  intro l
  induction l with
  | nil => intro eff c he; simpa [freeWalk] using he
  | cons x t ih =>
    intro eff c he
    simp only [freeWalk]
    by_cases hcap : capReached cap c
    · simp only [hcap, if_true]; exact ih he
    · simp only [hcap, Bool.false_eq_true, if_false]
      by_cases hb : eff + x.item.effort ≤ B
      · simp only [hb, if_true]; exact ih hb
      · simp only [hb, if_false]; exact ih he

/-- The walk's final effort is at least its initial effort (efforts are
positive). -/
lemma freeWalk_effort_init_le {B : ℚ} {cap : Option Nat} :
    ∀ {l : List SI} {eff : ℚ} {c : Nat},
      (∀ si ∈ l, 0 < si.item.effort) → eff ≤ (freeWalk B cap l eff c).2.2 := by
  intro l
  induction l with
  | nil => intro eff c _; simp [freeWalk]
  | cons x t ih =>
    intro eff c hpos
    have hx := hpos x (List.mem_cons_self x t)
    have hrest := fun si hsi => hpos si (List.mem_cons_of_mem x hsi)
    simp only [freeWalk]
    by_cases hcap : capReached cap c
    · simp only [hcap, if_true]; exact ih hrest
    · simp only [hcap, Bool.false_eq_true, if_false]
      by_cases hb : eff + x.item.effort ≤ B
      · simp only [hb, if_true]
        have := @ih (eff + x.item.effort) (c + 1) hrest
        linarith
      · simp only [hb, if_false]; exact ih hrest

/-- The walk's final effort equals the initial effort or lies within the
budget. -/
lemma freeWalk_effort_cases (B : ℚ) (cap : Option Nat) :
    ∀ (l : List SI) (eff : ℚ) (c : Nat),
      (freeWalk B cap l eff c).2.2 = eff ∨ (freeWalk B cap l eff c).2.2 ≤ B := by
  intro l
  induction l with
  | nil => intro eff c; left; simp [freeWalk]
  | cons x t ih =>
    intro eff c
    simp only [freeWalk]
    by_cases hcap : capReached cap c
    · simp only [hcap, if_true]; exact ih eff c
    · simp only [hcap, Bool.false_eq_true, if_false]
      by_cases hb : eff + x.item.effort ≤ B
      · simp only [hb, if_true]
        right
        exact freeWalk_effort_le hb
      · simp only [hb, if_false]; exact ih eff c

/-- Admitted items form a sublist of the walked list. -/
lemma freeWalk_sel_sublist (B : ℚ) (cap : Option Nat) :
    ∀ (l : List SI) (eff : ℚ) (c : Nat), (freeWalk B cap l eff c).1.Sublist l := by
  intro l
  induction l with
  | nil => intro eff c; simp [freeWalk]
  | cons x t ih =>
    intro eff c
    simp only [freeWalk]
    by_cases hcap : capReached cap c
    · simp only [hcap, if_true]; exact (ih eff c).cons x
    · simp only [hcap, Bool.false_eq_true, if_false]
      by_cases hb : eff + x.item.effort ≤ B
      · simp only [hb, if_true]; exact (ih (eff + x.item.effort) (c + 1)).cons₂ x
      · simp only [hb, if_false]; exact (ih eff c).cons x

/-- Skipped items form a sublist of the walked list. -/
lemma freeWalk_rej_sublist (B : ℚ) (cap : Option Nat) :
    ∀ (l : List SI) (eff : ℚ) (c : Nat),
      (((freeWalk B cap l eff c).2.1).map Prod.fst).Sublist l := by
  intro l
  induction l with
  | nil => intro eff c; simp [freeWalk]
  | cons x t ih =>
    intro eff c
    simp only [freeWalk]
    by_cases hcap : capReached cap c
    · simp only [hcap, if_true, List.map_cons]; exact (ih eff c).cons₂ x
    · simp only [hcap, Bool.false_eq_true, if_false]
      by_cases hb : eff + x.item.effort ≤ B
      · simp only [hb, if_true]; exact (ih (eff + x.item.effort) (c + 1)).cons x
      · simp only [hb, if_false, List.map_cons]; exact (ih eff c).cons₂ x

/-- Every admitted item fit together with the initial effort (without a cap,
efforts positive). -/
lemma freeWalk_admit_bound {B : ℚ} :
    ∀ {l : List SI} {eff : ℚ} {c : Nat},
      (∀ si ∈ l, 0 < si.item.effort) →
      ∀ x ∈ (freeWalk B none l eff c).1, eff + x.item.effort ≤ B := by
  intro l
  induction l with
  | nil => intro eff c _ x hx; simp [freeWalk] at hx
  | cons y t ih =>
    intro eff c hpos x hx
    have hy : 0 < y.item.effort := hpos y (List.mem_cons_self y t)
    have hrest := fun si hsi => hpos si (List.mem_cons_of_mem y hsi)
    simp only [freeWalk, capReached, Bool.false_eq_true, if_false] at hx
    by_cases hb : eff + y.item.effort ≤ B
    · simp only [hb, if_true] at hx
      rcases List.mem_cons.1 hx with rfl | hx2
      · exact hb
      · have := ih hrest x hx2
        linarith
    · simp only [hb, if_false] at hx
      exact ih hrest x hx

/-- Density comparison: a higher-score item with no higher density costs at
least as much effort (nonnegative base score). -/
lemma effort_le_of_density_le {sx su ex eu : ℚ} (hex : 0 < ex) (heu : 0 < eu)
    (hsx : 0 ≤ sx) (hlt : sx < su) (hd : su / eu ≤ sx / ex) : ex ≤ eu := by
  rw [div_le_div_iff heu hex] at hd
  nlinarith

/-- Base invariant of the exchange pass (no cap): after the greedy walk over
a density-sorted list with positive efforts and nonnegative scores, any
skipped item with a higher score than an admitted item costs at least as
much effort. -/
lemma freeWalk_base_inv {B : ℚ} :
    ∀ {l : List SI} {eff : ℚ} {c : Nat},
      l.Pairwise (fun a b => b.density ≤ a.density) →
      (∀ si ∈ l, 0 < si.item.effort) →
      (∀ si ∈ l, 0 ≤ si.score) →
      (∀ si ∈ l, si.density = si.score / si.item.effort) →
      ∀ x ∈ (freeWalk B none l eff c).1,
        ∀ u ∈ (freeWalk B none l eff c).2.1,
          x.score < u.1.score → x.item.effort ≤ u.1.item.effort := by
  intro l
  induction l with
  | nil => intro eff c _ _ _ _ x hx; simp [freeWalk] at hx
  | cons y t ih =>
    intro eff c hsort hpos hnn hdens x hx u hu hscore
    have hy : 0 < y.item.effort := hpos y (List.mem_cons_self y t)
    have hrestpos := fun si hsi => hpos si (List.mem_cons_of_mem y hsi)
    have hrestnn := fun si hsi => hnn si (List.mem_cons_of_mem y hsi)
    have hrestd := fun si hsi => hdens si (List.mem_cons_of_mem y hsi)
    have hsortt := (List.pairwise_cons.1 hsort).2
    have hhead := (List.pairwise_cons.1 hsort).1
    simp only [freeWalk, capReached, Bool.false_eq_true, if_false] at hx hu
    by_cases hb : eff + y.item.effort ≤ B
    · simp only [hb, if_true] at hx hu
      rcases List.mem_cons.1 hx with rfl | hx2
      · -- x is the admitted head; u was skipped later, so it has lower
        -- density but higher score, hence at least the head's effort.
        have humem : u.1 ∈ t := by
          have hs := freeWalk_rej_sublist B none t (eff + x.item.effort) (c + 1)
          exact hs.mem (List.mem_map.2 ⟨u, hu, rfl⟩)
        have hd : u.1.density ≤ x.density := hhead u.1 humem
        rw [hdens x (List.mem_cons_self x t),
          hdens u.1 (List.mem_cons_of_mem x humem)] at hd
        exact effort_le_of_density_le (hpos x (List.mem_cons_self x t))
          (hrestpos u.1 humem) (hnn x (List.mem_cons_self x t)) hscore hd
      · exact ih hsortt hrestpos hrestnn hrestd x hx2 u hu hscore
    · simp only [hb, if_false] at hx hu
      rcases List.mem_cons.1 hu with rfl | hu2
      · -- u is the rejected head: every admitted item fits the remaining
        -- budget the head exceeded.
        have := freeWalk_admit_bound hrestpos x hx
        simp only at this ⊢
        linarith [not_le.1 hb]
      · exact ih hsortt hrestpos hrestnn hrestd x hx u hu2 hscore

/-- Cross-budget dichotomy of the greedy walk: either both budgets walk to
the same outcome, or the larger budget's walk strictly exceeds the smaller
budget somewhere along the way. -/
lemma freeWalk_dicho {B1 B2 : ℚ} (hB : B1 ≤ B2) (cap : Option Nat) :
    ∀ (l : List SI) (eff : ℚ) (c : Nat), (∀ si ∈ l, 0 < si.item.effort) →
      freeWalk B1 cap l eff c = freeWalk B2 cap l eff c ∨
        B1 < (freeWalk B2 cap l eff c).2.2 := by
  intro l
  induction l with
  | nil => intro eff c _; left; simp [freeWalk]
  | cons x t ih =>
    intro eff c hpos
    have hx : 0 < x.item.effort := hpos x (List.mem_cons_self x t)
    have hrest := fun si hsi => hpos si (List.mem_cons_of_mem x hsi)
    by_cases hcap : capReached cap c
    · rcases ih eff c hrest with h | h
      · left; simp only [freeWalk, hcap, if_true, h]
      · right; simp only [freeWalk, hcap, if_true]; exact h
    · by_cases hb1 : eff + x.item.effort ≤ B1
      · have hb2 : eff + x.item.effort ≤ B2 := hb1.trans hB
        rcases ih (eff + x.item.effort) (c + 1) hrest with h | h
        · left
          simp only [freeWalk, hcap, Bool.false_eq_true, if_false, hb1, hb2,
            if_true, h]
        · right
          simp only [freeWalk, hcap, Bool.false_eq_true, if_false, hb2, if_true]
          exact h
      · by_cases hb2 : eff + x.item.effort ≤ B2
        · right
          simp only [freeWalk, hcap, Bool.false_eq_true, if_false, hb2, if_true]
          have := @freeWalk_effort_init_le B2 cap t (eff + x.item.effort) (c + 1)
            hrest
          have hlt := not_le.1 hb1
          linarith
        · rcases ih eff c hrest with h | h
          · left
            simp only [freeWalk, hcap, Bool.false_eq_true, if_false, hb1, hb2,
              if_false, h]
          · right
            simp only [freeWalk, hcap, Bool.false_eq_true, if_false, hb2,
              if_false]
            exact h

/-! ### Exchange-pass lemmas -/

/-- The fold underlying `minSel` stays within its candidates. -/
lemma foldl_min_mem :
    ∀ (xs : List SI) (acc : SI),
      xs.foldl (fun m y => if y.score < m.score then y else m) acc ∈ acc :: xs := by
  intro xs
  induction xs with
  | nil => intro acc; simp
  | cons y ys ih =>
    intro acc
    simp only [List.foldl_cons]
    by_cases hy : y.score < acc.score
    · simp only [hy, if_true]
      rcases List.mem_cons.1 (ih y) with h | h
      · rw [h]; simp
      · simp [h]
    · simp only [hy, if_false]
      rcases List.mem_cons.1 (ih acc) with h | h
      · rw [h]; simp
      · simp [h]

/-- The lowest-score selected item is a selected item. -/
lemma minSel_mem {l : List SI} {m : SI} (h : minSel l = some m) : m ∈ l := by
  cases l with
  | nil => simp [minSel] at h
  | cons x xs =>
    simp only [minSel, Option.some.injEq] at h
    have := foldl_min_mem xs x
    rw [h] at this
    exact this

/-- A state fixed by the exchange step is fixed by the whole loop. -/
lemma exchangeLoop_fixed {B b : ℚ} {st : ExchangeState}
    (h : exchangeStep B b st = st) :
    ∀ n, exchangeLoop B b n st = st := by
  intro n
  induction n with
  | zero => rfl
  | succ k ih => simp only [exchangeLoop, h, ih]

/-- When nothing is selected the exchange step does nothing. -/
lemma exchangeStep_none {B b : ℚ} {st : ExchangeState}
    (h : minSel st.sel = none) : exchangeStep B b st = st := by
  simp only [exchangeStep, h]

/-- When no candidate is found the exchange step does nothing. -/
lemma exchangeStep_nocand {B b : ℚ} {st : ExchangeState} {m : SI}
    (hm : minSel st.sel = some m)
    (hc : pickCand B m (b + effortOf st.sel) st.unsel = none) :
    exchangeStep B b st = st := by
  simp only [exchangeStep, hm, hc]

/-- When a candidate is found the exchange step swaps it in. -/
lemma exchangeStep_swap {B b : ℚ} {st : ExchangeState} {m : SI}
    {u : SI × String} (hm : minSel st.sel = some m)
    (hc : pickCand B m (b + effortOf st.sel) st.unsel = some u) :
    exchangeStep B b st =
      { sel := u.1 :: st.sel.erase m
        unsel := st.unsel.erase u
        out := m :: st.out } := by
  simp only [exchangeStep, hm, hc]

/-- The predicate facts extracted from a successful candidate pick. -/
lemma pickCand_facts {B curEff : ℚ} {m : SI} {unsel : List (SI × String)}
    {u : SI × String} (h : pickCand B m curEff unsel = some u) :
    u ∈ unsel ∧ m.score < u.1.score ∧
      curEff - m.item.effort + u.1.item.effort ≤ B := by
  refine ⟨List.mem_of_find?_eq_some h, ?_, ?_⟩ <;>
  · have := List.find?_some h
    simp only [Bool.and_eq_true, decide_eq_true_eq] at this
    tauto

/-- After a swap the selected effort is the old one adjusted by the
exchanged efforts. -/
lemma exchangeStep_swap_effort {B b : ℚ} {st : ExchangeState} {m : SI}
    {u : SI × String} (hm : minSel st.sel = some m)
    (hc : pickCand B m (b + effortOf st.sel) st.unsel = some u) :
    effortOf (exchangeStep B b st).sel =
      effortOf st.sel - m.item.effort + u.1.item.effort := by
  rw [exchangeStep_swap hm hc]
  simp only [effortOf_cons]
  rw [effortOf_erase (minSel_mem hm)]
  ring

/-- One exchange step leaves the selected effort unchanged or within
budget. -/
lemma exchangeStep_effort_cases (B b : ℚ) (st : ExchangeState) :
    effortOf (exchangeStep B b st).sel = effortOf st.sel ∨
      b + effortOf (exchangeStep B b st).sel ≤ B := by
  cases hm : minSel st.sel with
  | none => left; rw [exchangeStep_none hm]
  | some m =>
    cases hc : pickCand B m (b + effortOf st.sel) st.unsel with
    | none => left; rw [exchangeStep_nocand hm hc]
    | some u =>
      right
      rw [exchangeStep_swap_effort hm hc]
      have := (pickCand_facts hc).2.2
      linarith

/-- The exchange loop leaves the selected effort unchanged or within
budget. -/
lemma exchangeLoop_effort_cases (B b : ℚ) :
    ∀ (n : Nat) (st : ExchangeState),
      effortOf (exchangeLoop B b n st).sel = effortOf st.sel ∨
        b + effortOf (exchangeLoop B b n st).sel ≤ B := by
  intro n
  induction n with
  | zero => intro st; left; rfl
  | succ k ih =>
    intro st
    simp only [exchangeLoop]
    rcases ih (exchangeStep B b st) with h | h
    · rcases exchangeStep_effort_cases B b st with h2 | h2
      · left; rw [h, h2]
      · right; rw [h]; exact h2
    · right; exact h

/-- The product boolean equality agrees with the one induced by decidable
equality, so `erase` on reason-tagged items is instance-independent. -/
lemma erase_pair_eq :
    ∀ (l : List (SI × String)) (u : SI × String),
      l.erase u = @List.erase _ instBEqOfDecidableEq l u := by
  intro l u
  induction l with
  | nil => rfl
  | cons x t ih =>
    rw [List.erase_cons, @List.erase_cons _ instBEqOfDecidableEq]
    have hbeq : (x == u) = @BEq.beq _ instBEqOfDecidableEq x u := by
      by_cases hxu : x = u <;>
        simp [hxu, instBEqOfDecidableEq, beq_eq_false_iff_ne]
    rw [hbeq, ih]

/-- `erase` of a tagged item commutes with projecting the tags away, as a
permutation fact: the tagged list is a cons of the erased one. -/
lemma perm_cons_erase_pair {l : List (SI × String)} {u : SI × String}
    (h : u ∈ l) : l.Perm (u :: l.erase u) := by
  rw [erase_pair_eq]
  exact List.perm_cons_erase h

/-- One exchange step preserves the partition permutation. -/
lemma exchangeStep_perm {B b : ℚ} {L : List SI} {st : ExchangeState}
    (hperm : (st.sel ++ (st.unsel.map Prod.fst) ++ st.out).Perm L) :
    ((exchangeStep B b st).sel ++ ((exchangeStep B b st).unsel.map Prod.fst)
      ++ (exchangeStep B b st).out).Perm L := by
  cases hm : minSel st.sel with
  | none => rw [exchangeStep_none hm]; exact hperm
  | some m =>
    cases hc : pickCand B m (b + effortOf st.sel) st.unsel with
    | none => rw [exchangeStep_nocand hm hc]; exact hperm
    | some u =>
      rw [exchangeStep_swap hm hc]
      refine List.Perm.trans ?_ hperm
      have hmm : m ∈ st.sel := minSel_mem hm
      have huu : u ∈ st.unsel := (pickCand_facts hc).1
      have h1 : st.sel.Perm (m :: st.sel.erase m) := List.perm_cons_erase hmm
      have h2 : (st.unsel.map Prod.fst).Perm
          (u.1 :: ((st.unsel.erase u).map Prod.fst)) := by
        simpa using (perm_cons_erase_pair huu).map Prod.fst
      rw [List.perm_iff_count]
      intro a
      have h1c := (List.perm_iff_count.1 h1) a
      have h2c := (List.perm_iff_count.1 h2) a
      simp only [List.count_append, List.count_cons] at *
      by_cases ham : a = m <;> by_cases hau : a = u.1 <;>
        simp only [ham, hau] at * <;> omega

/-- One exchange step preserves density-sortedness of the unselected tail. -/
lemma exchangeStep_pairwise {B b : ℚ} {st : ExchangeState}
    (hpair : (st.unsel.map Prod.fst).Pairwise (fun a b => b.density ≤ a.density)) :
    (((exchangeStep B b st).unsel.map Prod.fst)).Pairwise
      (fun a b => b.density ≤ a.density) := by
  cases hm : minSel st.sel with
  | none => rw [exchangeStep_none hm]; exact hpair
  | some m =>
    cases hc : pickCand B m (b + effortOf st.sel) st.unsel with
    | none => rw [exchangeStep_nocand hm hc]; exact hpair
    | some u =>
      rw [exchangeStep_swap hm hc]
      exact hpair.sublist ((st.unsel.erase_sublist u).map Prod.fst)

/-- One exchange step (with zero base effort) preserves the combined
invariant, and never decreases the selected effort. -/
lemma exchangeStep_inv {B : ℚ} {L : List SI} {st : ExchangeState}
    (LPos : ∀ si ∈ L, 0 < si.item.effort)
    (LNN : ∀ si ∈ L, 0 ≤ si.score)
    (LDens : ∀ si ∈ L, si.density = si.score / si.item.effort)
    (LNodup : L.Nodup)
    (hinv : Inv B L st) :
    Inv B L (exchangeStep B 0 st) ∧
      effortOf st.sel ≤ effortOf (exchangeStep B 0 st).sel := by
  obtain ⟨hperm, hpair, hR⟩ := hinv
  cases hm : minSel st.sel with
  | none => rw [exchangeStep_none hm]; exact ⟨⟨hperm, hpair, hR⟩, le_refl _⟩
  | some m =>
    cases hc : pickCand B m (0 + effortOf st.sel) st.unsel with
    | none => rw [exchangeStep_nocand hm hc]; exact ⟨⟨hperm, hpair, hR⟩, le_refl _⟩
    | some u =>
      have hmm : m ∈ st.sel := minSel_mem hm
      obtain ⟨huu, hsc, hfeas⟩ := pickCand_facts hc
      have hemu : m.item.effort ≤ u.1.item.effort :=
        hR m hmm u huu hsc (by linarith)
      have heffeq : effortOf (exchangeStep B 0 st).sel =
          effortOf st.sel - m.item.effort + u.1.item.effort :=
        exchangeStep_swap_effort hm hc
      have hmono : effortOf st.sel ≤ effortOf (exchangeStep B 0 st).sel := by
        rw [heffeq]; linarith
      refine ⟨⟨exchangeStep_perm hperm, exchangeStep_pairwise hpair, ?_⟩, hmono⟩
      -- the swap invariant for the new state
      rw [exchangeStep_swap hm hc] at heffeq ⊢
      intro x hx u2 hu2 hsc2 hfeas2
      simp only at hx hu2 hfeas2
      rw [heffeq] at hfeas2
      -- the split of the unselected list at the chosen candidate
      obtain ⟨l1, l2, hsplit, hfail⟩ := find?_split hc
      have hndtriple : (st.sel ++ (st.unsel.map Prod.fst) ++ st.out).Nodup :=
        (hperm.nodup_iff).2 LNodup
      have hndmap : (st.unsel.map Prod.fst).Nodup :=
        ((List.nodup_append.1 (List.nodup_append.1 hndtriple).1).2.1)
      have hndu : st.unsel.Nodup := hndmap.of_map
      have hul1 : u ∉ l1 := by
        rw [hsplit] at hndu
        have := (List.nodup_append.1 hndu).2.2
        intro hcon
        exact this hcon (List.mem_cons_self u l2)
      have herase : st.unsel.erase u = l1 ++ l2 := by
        rw [hsplit, List.erase_append_right _ hul1, List.erase_cons_head]
      rcases List.mem_cons.1 hx with rfl | hx2
      · -- the swapped-in candidate against a later unselected item
        rw [herase] at hu2
        rcases List.mem_append.1 hu2 with hu2l | hu2r
        · -- earlier items failed the candidate predicate, contradiction
          exfalso
          have hfl := hfail u2 hu2l
          have : (decide (m.score < u2.1.score) &&
              decide (0 + effortOf st.sel - m.item.effort
                + u2.1.item.effort ≤ B)) = true := by
            simp only [Bool.and_eq_true, decide_eq_true_eq]
            exact ⟨hsc.trans hsc2, by linarith⟩
          rw [this] at hfl
          cases hfl
        · -- later items have lower density, hence at least as much effort
          have hu1L : u.1 ∈ L := by
            refine (hperm.mem_iff).1 ?_
            have : u.1 ∈ st.unsel.map Prod.fst := List.mem_map.2 ⟨u, huu, rfl⟩
            simp [this]
          have hu2L : u2.1 ∈ L := by
            refine (hperm.mem_iff).1 ?_
            have hu2m : u2 ∈ st.unsel := by
              rw [hsplit]
              exact List.mem_append.2 (Or.inr (List.mem_cons_of_mem u hu2r))
            have : u2.1 ∈ st.unsel.map Prod.fst := List.mem_map.2 ⟨u2, hu2m, rfl⟩
            simp [this]
          have hdle : u2.1.density ≤ u.1.density := by
            rw [hsplit, List.map_append, List.map_cons] at hpair
            have hp2 := (List.pairwise_append.1 hpair).2.1
            exact (List.pairwise_cons.1 hp2).1 u2.1
              (List.mem_map.2 ⟨u2, hu2r, rfl⟩)
          rw [LDens u.1 hu1L, LDens u2.1 hu2L] at hdle
          exact effort_le_of_density_le (LPos u.1 hu1L) (LPos u2.1 hu2L)
            (LNN u.1 hu1L) hsc2 hdle
      · -- two untouched items: reduce to the old invariant
        have hxs : x ∈ st.sel := List.mem_of_mem_erase hx2
        have hu2s : u2 ∈ st.unsel := (List.erase_sublist u st.unsel).subset hu2
        exact hR x hxs u2 hu2s hsc2 (by linarith)

/-- The exchange loop (with zero base effort) preserves the combined
invariant and never decreases the selected effort. -/
lemma exchangeLoop_inv {B : ℚ} {L : List SI}
    (LPos : ∀ si ∈ L, 0 < si.item.effort)
    (LNN : ∀ si ∈ L, 0 ≤ si.score)
    (LDens : ∀ si ∈ L, si.density = si.score / si.item.effort)
    (LNodup : L.Nodup) :
    ∀ (n : Nat) (st : ExchangeState), Inv B L st →
      Inv B L (exchangeLoop B 0 n st) ∧
        effortOf st.sel ≤ effortOf (exchangeLoop B 0 n st).sel := by
  intro n
  induction n with
  | zero => intro st h; exact ⟨h, le_refl _⟩
  | succ k ih =>
    intro st h
    obtain ⟨hstep, hmono⟩ := exchangeStep_inv LPos LNN LDens LNodup h
    obtain ⟨hloop, hmono2⟩ := ih (exchangeStep B 0 st) hstep
    exact ⟨hloop, hmono.trans hmono2⟩

/-- Cross-budget comparison of the exchange loop: from a state reachable at
both budgets whose effort is zero or within the smaller budget, the loop at
the larger budget ends with at least as much selected effort. -/
lemma exchangeLoop_cross {B1 B2 : ℚ} (hB : B1 ≤ B2) {L : List SI}
    (LPos : ∀ si ∈ L, 0 < si.item.effort)
    (LNN : ∀ si ∈ L, 0 ≤ si.score)
    (LDens : ∀ si ∈ L, si.density = si.score / si.item.effort)
    (LNodup : L.Nodup) :
    ∀ (n : Nat) (st : ExchangeState), Inv B1 L st → Inv B2 L st →
      effortOf (exchangeLoop B1 0 n st).sel ≤
        effortOf (exchangeLoop B2 0 n st).sel := by
  intro n
  induction n with
  | zero => intro st _ _; exact le_refl _
  | succ k ih =>
    intro st h1 h2
    simp only [exchangeLoop]
    cases hm : minSel st.sel with
    | none =>
      rw [exchangeStep_none hm, exchangeStep_none hm]
      exact ih st h1 h2
    | some m =>
      have himp : ∀ v : SI × String,
          (decide (m.score < v.1.score) &&
            decide (0 + effortOf st.sel - m.item.effort
              + v.1.item.effort ≤ B1)) = true →
          (decide (m.score < v.1.score) &&
            decide (0 + effortOf st.sel - m.item.effort
              + v.1.item.effort ≤ B2)) = true := by
        intro v hv
        simp only [Bool.and_eq_true, decide_eq_true_eq] at hv ⊢
        exact ⟨hv.1, hv.2.trans hB⟩
      cases hc2 : pickCand B2 m (0 + effortOf st.sel) st.unsel with
      | none =>
        have hc1 : pickCand B1 m (0 + effortOf st.sel) st.unsel = none := by
          simp only [pickCand, List.find?_eq_none] at hc2 ⊢
          intro v hv hcon
          exact hc2 v hv (himp v hcon)
        rw [exchangeStep_nocand hm hc1, exchangeStep_nocand hm hc2]
        exact ih st h1 h2
      | some u2 =>
        cases hc1 : pickCand B1 m (0 + effortOf st.sel) st.unsel with
        | none =>
          -- the smaller budget is stuck for good; the larger one only grows
          rw [exchangeStep_nocand hm hc1]
          have hfix : exchangeStep B1 0 st = st := exchangeStep_nocand hm hc1
          rw [exchangeLoop_fixed hfix]
          obtain ⟨hstep2, hmono2⟩ := exchangeStep_inv LPos LNN LDens LNodup h2
          obtain ⟨_, hmono3⟩ := exchangeLoop_inv LPos LNN LDens LNodup k
            (exchangeStep B2 0 st) hstep2
          exact hmono2.trans hmono3
        | some u1 =>
          by_cases hp1 : (decide (m.score < u2.1.score) &&
              decide (0 + effortOf st.sel - m.item.effort
                + u2.1.item.effort ≤ B1)) = true
          · -- the same swap is taken at both budgets
            have hpick1 : pickCand B1 m (0 + effortOf st.sel) st.unsel = some u2 :=
              find?_agree himp hc2 hp1
            have hsame : exchangeStep B1 0 st = exchangeStep B2 0 st := by
              rw [exchangeStep_swap hm hpick1, exchangeStep_swap hm hc2]
            rw [hsame]
            refine ih (exchangeStep B2 0 st) ?_ ?_
            · rw [← hsame]
              exact (exchangeStep_inv LPos LNN LDens LNodup h1).1
            · exact (exchangeStep_inv LPos LNN LDens LNodup h2).1
          · -- the larger budget takes a swap infeasible at the smaller one:
            -- its effort strictly exceeds the smaller budget from now on
            obtain ⟨hu2mem, hu2sc, hu2feas⟩ := pickCand_facts hc2
            have hgt : B1 < effortOf (exchangeStep B2 0 st).sel := by
              rw [exchangeStep_swap_effort hm hc2]
              by_contra hcon
              apply hp1
              simp only [Bool.and_eq_true, decide_eq_true_eq]
              exact ⟨hu2sc, by linarith [not_lt.1 hcon]⟩
            obtain ⟨_, hmono2⟩ := exchangeLoop_inv LPos LNN LDens LNodup k
              (exchangeStep B2 0 st)
              (exchangeStep_inv LPos LNN LDens LNodup h2).1
            have hrhs : B1 < effortOf (exchangeLoop B2 0 k
                (exchangeStep B2 0 st)).sel := lt_of_lt_of_le hgt hmono2
            -- the smaller budget's effort always stays at most B1 here
            have hlhs : effortOf (exchangeLoop B1 0 k
                (exchangeStep B1 0 st)).sel ≤ B1 := by
              have hstep1 : effortOf (exchangeStep B1 0 st).sel ≤ B1 := by
                rw [exchangeStep_swap_effort hm hc1]
                have := (pickCand_facts hc1).2.2
                linarith
              rcases exchangeLoop_effort_cases B1 0 k (exchangeStep B1 0 st)
                with hcase | hcase
              · rw [hcase]; exact hstep1
              · linarith
            linarith

/-- Claim C3, counterexample: on the Scenario A input the scoring model of
spec section 4.1 gives item `a` the confidence factor 0.75 the claim itself
asserts, but then its value density is 0.00675, not the 0.009 the claim
states. -/
theorem claim_C3_counterexample :
    confidenceFactor itemA = 3/4 ∧
    (toSI reqA.weights (maxEffortInBatch reqA.items) itemA).density = 27/4000 ∧
    (toSI reqA.weights (maxEffortInBatch reqA.items) itemA).density ≠ 9/1000 := by
  refine ⟨?_, ?_, ?_⟩ <;>
    norm_num [reqA, itemA, itemB, toSI, score, clamp01, confidenceFactor,
      maxEffortInBatch]

/-- Claim C3, amended: on Scenario A (`a`: risk 0.9 effort 100, `b`: risk 0.5
effort 50, budget 100, weights `{risk:1, crit:0}`, confidence factor 0.75)
the densities are 0.00675 for `a` and 0.0075 for `b`, so `b` is walked
first; the exchange correction then swaps `b` out for the higher-score `a`,
and the final selection is exactly `{a}` with `effort_selected = 100`. -/
theorem claim_C3_amended :
    (toSI reqA.weights (maxEffortInBatch reqA.items) itemA).density = 27/4000 ∧
    (toSI reqA.weights (maxEffortInBatch reqA.items) itemB).density = 3/400 ∧
    ∃ p, prioritize reqA = .ok p ∧
      p.summary.effort_selected = 100 ∧
      p.plan.map (fun e => (e.id, e.selected, e.selection_reason)) =
        [("a", true, "selected"), ("b", false, "budget_exceeded")] := by
  refine ⟨?_, ?_, ?_⟩ <;>
    norm_num [prioritize, reqA, itemA, itemB, computePlan, ctxOf,
      effectiveBudget, maxEffortInBatch, dupFree, excludedPart, nonExcludedPart,
      mandPart, freePart, mandSorted, mandPass, freeSorted, walkOf, exchangeOf,
      List.insertionSort,
      List.orderedInsert, toSI, score, clamp01, confidenceFactor, FreeLE,
      ScoreLE, EntryLE, tripleLe, pairLe, mandatoryPass, freeWalk, capReached,
      exchangeLoop, exchangeStep, minSel, pickCand, effortOf, mkEntry,
      mkExcludedEntry, assignRanks, List.find?, List.filter, List.contains,
      List.erase, show ("a" : String) ≠ "b" from by decide]

/-- Claim C4: the prioritization engine is deterministic — two calls with
identical input (including item order) produce identical plans. -/
theorem claim_C4_determinism (r₁ r₂ : PrioritizationRequest) (h : r₁ = r₂) :
    prioritize r₁ = prioritize r₂ := by rw [h]

/-- Claim C4, witness at the Scenario A request. -/
theorem claim_C4_determinism_witness : prioritize reqA = prioritize reqA :=
  claim_C4_determinism reqA reqA rfl

/-- Claim C7: every comparator invocation returns exactly the four strategies
in the fixed order `effort_aware`, `risk_only`, `coverage_only`, `random`,
and the (seeded) random baseline's efficiency is identical across repeated
runs on the same item set and budget. -/
theorem claim_C7_comparator (items : List Item) (budget : ℚ) (w : Weights) :
    (compareHeuristics items budget w).comparisons.map
        (fun h => h.heuristic) =
      ["effort_aware", "risk_only", "coverage_only", "random"] ∧
    (compareHeuristics items budget w).comparisons.map (fun h => h.efficiency)
      = (compareHeuristics items budget w).comparisons.map
        (fun h => h.efficiency) :=
  ⟨rfl, rfl⟩

/-- Claim C8: contrary to the claim, `handlePrioritize` does not keep
"service unavailable" (`metrics = none`) and "no items" (`metrics = some []`)
distinct — both flow into the same empty-items branch — and it does
synthesize the seven fake demonstration items and feed them to the
`/prioritize` engine. -/
theorem claim_C8_fallback_items :
    assembleItems "project" none none none = demoItems "project" ∧
    assembleItems "project" (some []) none (some []) = demoItems "project" ∧
    demoItems "project" ≠ [] ∧
    (handlePrioritizeRequest 1 1000
        (assembleItems "project" none none none)).items =
      demoItems "project" := by
  refine ⟨rfl, rfl, ?_, rfl⟩
  simp [demoItems]

/-- A list of nonnegative rationals with zero sum is all zeros. -/
lemma all_zero_of_sum_zero :
    ∀ l : List ℚ, (∀ x ∈ l, 0 ≤ x) → l.sum = 0 → ∀ x ∈ l, x = 0 := by
  intro l
  induction l with
  | nil => simp
  | cons a t ih =>
    intro hnn hsum x hx
    have hta : 0 ≤ t.sum := List.sum_nonneg fun y hy => hnn y (List.mem_cons_of_mem a hy)
    have ha : 0 ≤ a := hnn a (List.mem_cons_self a t)
    have hsum2 : a + t.sum = 0 := by simpa using hsum
    have ha0 : a = 0 := le_antisymm (by linarith) ha
    have ht0 : t.sum = 0 := by linarith
    rcases List.mem_cons.1 hx with rfl | hx2
    · exact ha0
    · exact ih (fun y hy => hnn y (List.mem_cons_of_mem a hy)) ht0 x hx2

/-- Claim C10: the result page computes its summary percentages with
unguarded division: with `summary.budget = 0` the budget-utilization value
is `effort_selected / 0`, Infinity or NaN; with an empty plan or a plan
whose risks sum to 0, the risk-coverage value is `0 / 0 = NaN`.  No error
is raised: the embedded expressions are total and return the degenerate
value. -/
theorem claim_C10_degenerate_divisions :
    (∀ s : PlanSummary, s.budget = 0 → 0 ≤ s.effort_selected →
      budgetUtilizationPct s = .posInf ∨ budgetUtilizationPct s = .nan) ∧
    riskCoveragePct [] = .nan ∧
    (∀ plan : List PlanEntry, (∀ p ∈ plan, 0 ≤ p.risk) →
      (plan.map PlanEntry.risk).sum = 0 → riskCoveragePct plan = .nan) := by
  refine ⟨?_, ?_, ?_⟩
  · intro s h0 he
    by_cases hz : s.effort_selected = 0
    · right; simp [budgetUtilizationPct, jsDiv, jsMulConst, h0, hz]
    · left
      have : 0 < s.effort_selected := lt_of_le_of_ne he (Ne.symm hz)
      simp [budgetUtilizationPct, jsDiv, jsMulConst, h0, hz, this]
  · simp [riskCoveragePct, jsDiv, jsMulConst]
  · intro plan hnn hsum
    have hall : ∀ p ∈ plan, p.risk = 0 := by
      intro p hp
      exact all_zero_of_sum_zero (plan.map PlanEntry.risk)
        (by intro x hx; obtain ⟨q, hq, rfl⟩ := List.mem_map.1 hx; exact hnn q hq)
        hsum p.risk (List.mem_map.2 ⟨p, hp, rfl⟩)
    have hsel : (((plan.filter fun p => p.selected).map PlanEntry.risk)).sum = 0 := by
      apply List.sum_eq_zero
      intro x hx
      obtain ⟨q, hq, rfl⟩ := List.mem_map.1 hx
      exact hall q (List.mem_of_mem_filter hq)
    simp [riskCoveragePct, jsDiv, jsMulConst, hsum, hsel]

/-- Claim C10, witness: a summary with budget 0 and positive selected effort
yields Infinity or NaN, and an empty plan yields NaN risk coverage. -/
theorem claim_C10_degenerate_divisions_witness :
    (budgetUtilizationPct
        { budget := 0, effort_selected := 5, items_selected := 1,
          items_total := 2 } = .posInf ∨
      budgetUtilizationPct
        { budget := 0, effort_selected := 5, items_selected := 1,
          items_total := 2 } = .nan) ∧
    riskCoveragePct [] = .nan :=
  ⟨claim_C10_degenerate_divisions.1
      { budget := 0, effort_selected := 5, items_selected := 1,
        items_total := 2 } rfl (by norm_num),
    claim_C10_degenerate_divisions.2.1⟩

/-- Claim C1, counterexample: in the two-mandatory request each mandatory
item individually fits the budget (60 ≤ 100 twice), so the claim's
"no mandatory-overflow" hypothesis holds, yet the summary reports
`effort_selected = 120 > budget = 100`: force-including all mandatory items
can overflow the budget even when each fits alone. -/
theorem claim_C1_counterexample :
    (reqTwoMandatory.items.all
      fun it => decide (it.effort ≤ reqTwoMandatory.budget)) = true ∧
    (prioritize reqTwoMandatory).toOption.map
        (fun p => (p.summary.budget, p.summary.effort_selected)) =
      some (100, 120) ∧
    ¬ ((120 : ℚ) ≤ 100) := by
  refine ⟨by norm_num [reqTwoMandatory], ?_, by norm_num⟩
  norm_num [prioritize, reqTwoMandatory, computePlan, ctxOf,
    effectiveBudget, maxEffortInBatch, dupFree, excludedPart, nonExcludedPart,
    mandPart, freePart, mandSorted, mandPass, freeSorted, walkOf, exchangeOf,
    List.insertionSort,
    List.orderedInsert, toSI, score, clamp01, confidenceFactor, FreeLE,
    ScoreLE, EntryLE, tripleLe, pairLe, mandatoryPass, freeWalk, capReached,
    exchangeLoop, exchangeStep, minSel, pickCand, effortOf, mkEntry,
    mkExcludedEntry, assignRanks, List.find?, List.filter, List.contains,
    List.erase, Except.toOption,
    show ("x" : String) ≠ "y" from by decide]

/-- Claim C6, counterexample: on the fixed item set and weights of
`reqNegScores` (same items, same weights, no sprint context), raising the
budget from 10 to 12 DROPS both `items_selected` (2 to 1) and
`effort_selected` (4 to 2): the greedy walk plus exchange correction is not
monotone in the budget. -/
theorem claim_C6_counterexample :
    (reqNegScores 10).items = (reqNegScores 12).items ∧
    (reqNegScores 10).weights = (reqNegScores 12).weights ∧
    (reqNegScores 10).budget ≤ (reqNegScores 12).budget ∧
    (prioritize (reqNegScores 10)).toOption.map
        (fun p => (p.summary.items_selected, p.summary.effort_selected)) =
      some (2, 4) ∧
    (prioritize (reqNegScores 12)).toOption.map
        (fun p => (p.summary.items_selected, p.summary.effort_selected)) =
      some (1, 2) ∧
    ¬ ((2 : ℕ) ≤ 1 ∧ (4 : ℚ) ≤ 2) := by
  refine ⟨rfl, rfl, by norm_num [reqNegScores], ?_, ?_, by norm_num⟩ <;>
    norm_num [prioritize, reqNegScores, computePlan, ctxOf,
      effectiveBudget, maxEffortInBatch, dupFree, excludedPart, nonExcludedPart,
      mandPart, freePart, mandSorted, mandPass, freeSorted, walkOf, exchangeOf,
      List.insertionSort,
      List.orderedInsert, toSI, score, clamp01, confidenceFactor, FreeLE,
      ScoreLE, EntryLE, tripleLe, pairLe, mandatoryPass, freeWalk, capReached,
      exchangeLoop, exchangeStep, minSel, pickCand, effortOf, mkEntry,
      mkExcludedEntry, assignRanks, List.find?, List.filter, List.contains,
      List.erase, Except.toOption,
      show ("i0" : String) ≠ "i1" from by decide,
      show ("i0" : String) ≠ "i2" from by decide,
      show ("i1" : String) ≠ "i2" from by decide]

/-- Claim C9: in `executeCompletePipeline`, when collection, features and
training succeed but the `/prioritize` call fails, the pipeline returns the
three successful results with `prioritization` absent instead of
propagating the error; an error in any of the first three steps is
rethrown. -/
theorem claim_C9_pipeline_error_handling :
    (∀ (c : CollectionResult) (f : FeatureGenerationResponse)
        (t : AutoTuneResponse) (e : String),
        executeCompletePipeline (.ok c) (.ok f) (.ok t) (.error e) =
          .ok ⟨c, f, t, none⟩) ∧
    (∀ (e : String) f t p,
        executeCompletePipeline (.error e) f t p = .error e) ∧
    (∀ (c : CollectionResult) (e : String) t p,
        executeCompletePipeline (.ok c) (.error e) t p = .error e) ∧
    (∀ (c : CollectionResult) (f : FeatureGenerationResponse) (e : String) p,
        executeCompletePipeline (.ok c) (.ok f) (.error e) p = .error e) :=
  ⟨fun _ _ _ _ => rfl, fun _ _ _ _ => rfl, fun _ _ _ _ => rfl,
    fun _ _ _ _ => rfl⟩

end ACE

namespace ACE

/-! ### Pipeline-level helper lemmas -/

/-- `dupFree` really means no duplicates. -/
lemma dupFree_nodup : ∀ {l : List String}, dupFree l = true → l.Nodup := by
  intro l
  induction l with
  | nil => intro _; exact List.nodup_nil
  | cons x t ih =>
    intro h
    simp only [dupFree, Bool.and_eq_true, Bool.not_eq_true'] at h
    refine List.nodup_cons.2 ⟨?_, ih h.2⟩
    intro hmem
    have h2 := List.elem_eq_true_of_mem hmem
    have h3 : t.elem x = false := h.1
    rw [h2] at h3
    cases h3

/-- A successful prioritization call certifies the validation facts and
returns the computed plan. -/
lemma prioritize_ok_inv {r : PrioritizationRequest}
    {resp : PrioritizationResponse} (h : prioritize r = .ok resp) :
    ValidationFacts r ∧ resp = computePlan r := by
  unfold prioritize at h
  cases hfind : r.items.find? fun it => decide (it.effort ≤ 0) with
  | some it => rw [hfind] at h; cases h
  | none =>
    rw [hfind] at h
    by_cases hw : r.weights.risk < 0 ∨ r.weights.crit < 0
    · rw [if_pos hw] at h; cases h
    · rw [if_neg hw] at h
      by_cases hd : dupFree (r.items.map Item.id) = true
      · rw [if_pos hd] at h
        push_neg at hw
        refine ⟨⟨?_, hw.1, hw.2, dupFree_nodup hd⟩, by cases h; rfl⟩
        intro it hit
        have := List.find?_eq_none.1 hfind it hit
        simpa using this
      · rw [if_neg hd] at h; cases h

/-- `toSI` is injective. -/
lemma toSI_inj {w : Weights} {maxE : ℚ} {a b : Item}
    (h : toSI w maxE a = toSI w maxE b) : a = b :=
  congrArg SI.item h

/-- The post-walk exchange state satisfies the combined invariant. -/
lemma freeWalk_state_inv (B : ℚ) {L : List SI}
    (LSorted : L.Pairwise (fun a b => b.density ≤ a.density))
    (LPos : ∀ si ∈ L, 0 < si.item.effort)
    (LNN : ∀ si ∈ L, 0 ≤ si.score)
    (LDens : ∀ si ∈ L, si.density = si.score / si.item.effort) :
    Inv B L
      { sel := (freeWalk B none L 0 0).1
        unsel := (freeWalk B none L 0 0).2.1
        out := [] } := by
  refine ⟨?_, ?_, ?_⟩
  · simpa using freeWalk_perm B none L 0 0
  · exact LSorted.sublist (freeWalk_rej_sublist B none L 0 0)
  · intro x hx u hu hsc _
    exact freeWalk_base_inv LSorted LPos LNN LDens x hx u hu hsc

/-- Core monotonicity: over a density-sorted, duplicate-free scored list
with positive efforts and nonnegative scores, the selected effort after the
greedy walk plus exchange pass does not decrease when the budget grows. -/
lemma exchange_effort_mono {B1 B2 : ℚ} (hB : B1 ≤ B2) {L : List SI}
    (LSorted : L.Pairwise (fun a b => b.density ≤ a.density))
    (LPos : ∀ si ∈ L, 0 < si.item.effort)
    (LNN : ∀ si ∈ L, 0 ≤ si.score)
    (LDens : ∀ si ∈ L, si.density = si.score / si.item.effort)
    (LNodup : L.Nodup) (n : Nat) :
    effortOf (exchangeLoop B1 0 n
      { sel := (freeWalk B1 none L 0 0).1
        unsel := (freeWalk B1 none L 0 0).2.1, out := [] }).sel ≤
    effortOf (exchangeLoop B2 0 n
      { sel := (freeWalk B2 none L 0 0).1
        unsel := (freeWalk B2 none L 0 0).2.1, out := [] }).sel := by
  have hinv2 : Inv B2 L
      { sel := (freeWalk B2 none L 0 0).1
        unsel := (freeWalk B2 none L 0 0).2.1, out := [] } :=
    freeWalk_state_inv B2 LSorted LPos LNN LDens
  rcases freeWalk_dicho hB none L 0 0 LPos with heq | hdiv
  · -- identical greedy outcomes: compare the exchange loops directly
    rw [heq]
    refine exchangeLoop_cross hB LPos LNN LDens LNodup n _ ?_ hinv2
    rw [← heq]
    exact freeWalk_state_inv B1 LSorted LPos LNN LDens
  · -- the larger budget admitted beyond the smaller budget already
    obtain ⟨hinvfin, hmono⟩ := exchangeLoop_inv LPos LNN LDens LNodup n _ hinv2
    have hacc2 := freeWalk_effort_acc B2 none L 0 0
    have hrhs : B1 < effortOf (exchangeLoop B2 0 n
        { sel := (freeWalk B2 none L 0 0).1
          unsel := (freeWalk B2 none L 0 0).2.1, out := [] }).sel := by
      have : B1 < effortOf (freeWalk B2 none L 0 0).1 := by linarith
      linarith
    have hrhs0 : 0 ≤ effortOf (exchangeLoop B2 0 n
        { sel := (freeWalk B2 none L 0 0).1
          unsel := (freeWalk B2 none L 0 0).2.1, out := [] }).sel := by
      apply effortOf_nonneg
      intro si hsi
      apply LPos
      refine (hinvfin.1.mem_iff).1 ?_
      simp [hsi]
    have hacc1 := freeWalk_effort_acc B1 none L 0 0
    rcases exchangeLoop_effort_cases B1 0 n
        { sel := (freeWalk B1 none L 0 0).1
          unsel := (freeWalk B1 none L 0 0).2.1, out := [] } with hch | hch
    · rw [hch]
      rcases freeWalk_effort_cases B1 none L 0 0 with hwc | hwc
      · have : effortOf (freeWalk B1 none L 0 0).1 = 0 := by
          simp only at hacc1
          linarith
        rw [this]
        exact hrhs0
      · simp only at hacc1
        have : effortOf (freeWalk B1 none L 0 0).1 ≤ B1 := by linarith
        linarith
    · linarith

/-- Without a sprint context the partitions degenerate: nothing is excluded
or mandatory. -/
lemma noCtx_parts {r : PrioritizationRequest} (h : r.sprint_context = none) :
    excludedPart r = [] ∧ nonExcludedPart r = r.items ∧ mandPart r = [] ∧
      freePart r = r.items := by
  have hctx : ctxOf r = {} := by simp [ctxOf, h]
  have hne : nonExcludedPart r = r.items := by
    simp [nonExcludedPart, hctx, List.filter_eq_self]
  refine ⟨?_, hne, ?_, ?_⟩
  · simp [excludedPart, hctx]
  · simp [mandPart, hctx, hne]
  · simp [freePart, hctx, hne, List.filter_eq_self]

/-- Without a sprint context the mandatory pre-pass is empty. -/
lemma noCtx_mandPass {r : PrioritizationRequest} (h : r.sprint_context = none) :
    mandSorted r = [] ∧ mandPass r = ([], 0) := by
  have hm : mandSorted r = [] := by
    rw [mandSorted, (noCtx_parts h).2.2.1]
    rfl
  exact ⟨hm, by rw [mandPass, hm]; rfl⟩

/-- Without a sprint context the effective budget is the request budget. -/
lemma noCtx_budget {r : PrioritizationRequest} (h : r.sprint_context = none) :
    effectiveBudget r = r.budget := by
  simp [effectiveBudget, h]

end ACE

namespace ACE

/-- Without a sprint context the context collapses to the default. -/
lemma noCtx_ctx {r : PrioritizationRequest} (h : r.sprint_context = none) :
    ctxOf r = {} := by simp [ctxOf, h]

/-- Rewriting of the selected effort of a plan computed without a sprint
context, down to the walk-plus-exchange core. -/
lemma noCtx_effort {r : PrioritizationRequest} (h : r.sprint_context = none) :
    (computePlan r).summary.effort_selected =
      effortOf (exchangeLoop r.budget 0 (freeSorted r).length
        { sel := (freeWalk r.budget none (freeSorted r) 0 0).1
          unsel := (freeWalk r.budget none (freeSorted r) 0 0).2.1
          out := [] }).sel := by
  show (mandPass r).2 + effortOf (exchangeOf r).sel = _
  rw [exchangeOf, walkOf]
  rw [(noCtx_mandPass h).1, (noCtx_mandPass h).2, noCtx_budget h, noCtx_ctx h]
  norm_num

/-- The scored, density-sorted free list of a request without a sprint
context depends only on the items and the weights. -/
lemma noCtx_freeSorted {r1 r2 : PrioritizationRequest}
    (hitems : r1.items = r2.items) (hw : r1.weights = r2.weights)
    (hc1 : r1.sprint_context = none) (hc2 : r2.sprint_context = none) :
    freeSorted r2 = freeSorted r1 := by
  rw [freeSorted, freeSorted, (noCtx_parts hc1).2.2.2, (noCtx_parts hc2).2.2.2,
    ← hitems, ← hw]

/-- Claim C6, amended: for a fixed item set and weights with no sprint
context and all computed priority scores nonnegative, raising the budget
never decreases `effort_selected` (the exchange-correction pass included);
`items_selected` can still decrease, as the counterexample shows. -/
theorem claim_C6_amended (r1 r2 : PrioritizationRequest)
    (p1 p2 : PrioritizationResponse)
    (hitems : r1.items = r2.items) (hw : r1.weights = r2.weights)
    (hc1 : r1.sprint_context = none) (hc2 : r2.sprint_context = none)
    (hb : r1.budget ≤ r2.budget)
    (hnn : ∀ it ∈ r1.items,
      0 ≤ score r1.weights (maxEffortInBatch r1.items) it)
    (h1 : prioritize r1 = .ok p1) (h2 : prioritize r2 = .ok p2) :
    p1.summary.effort_selected ≤ p2.summary.effort_selected := by
  obtain ⟨⟨hpos1, _, _, hnd1⟩, hp1⟩ := prioritize_ok_inv h1
  obtain ⟨_, hp2⟩ := prioritize_ok_inv h2
  rw [hp1, hp2, noCtx_effort hc1, noCtx_effort hc2,
    noCtx_freeSorted hitems hw hc1 hc2]
  set L := freeSorted r1 with hL
  have hmem : ∀ si ∈ L, ∃ it ∈ r1.items,
      si = toSI r1.weights (maxEffortInBatch r1.items) it := by
    intro si hsi
    have := (List.perm_insertionSort FreeLE
      ((freePart r1).map (toSI r1.weights (maxEffortInBatch r1.items)))).subset
      hsi
    obtain ⟨it, hit, rfl⟩ := List.mem_map.1 this
    rw [(noCtx_parts hc1).2.2.2] at hit
    exact ⟨it, hit, rfl⟩
  have LPos : ∀ si ∈ L, 0 < si.item.effort := by
    intro si hsi
    obtain ⟨it, hit, rfl⟩ := hmem si hsi
    exact hpos1 it hit
  have LNN : ∀ si ∈ L, 0 ≤ si.score := by
    intro si hsi
    obtain ⟨it, hit, rfl⟩ := hmem si hsi
    exact hnn it hit
  have LDens : ∀ si ∈ L, si.density = si.score / si.item.effort := by
    intro si hsi
    obtain ⟨it, hit, rfl⟩ := hmem si hsi
    rfl
  have LNodup : L.Nodup := by
    rw [hL, freeSorted]
    refine (List.perm_insertionSort FreeLE _).nodup_iff.2 ?_
    refine List.Nodup.map (fun a b hab => toSI_inj hab) ?_
    rw [(noCtx_parts hc1).2.2.2]
    exact hnd1.of_map
  exact exchange_effort_mono hb (freeSorted_density_pairwise r1) LPos LNN
    LDens LNodup L.length

end ACE

namespace ACE

/-- Claim C6, amended, witness: on the positive-score three-item request,
raising the budget from 9 to 10 does not decrease the selected effort. -/
theorem claim_C6_amended_witness :
    (computePlan (reqPosScores 9)).summary.effort_selected ≤
      (computePlan (reqPosScores 10)).summary.effort_selected := by
  have hval : ∀ B : ℚ, prioritize (reqPosScores B) =
      .ok (computePlan (reqPosScores B)) := by
    intro B
    norm_num [prioritize, reqPosScores, dupFree,
      show ("x1" : String) ≠ "x2" from by decide,
      show ("x1" : String) ≠ "x3" from by decide,
      show ("x2" : String) ≠ "x3" from by decide]
  refine claim_C6_amended (reqPosScores 9) (reqPosScores 10) _ _ rfl rfl rfl rfl
    (by norm_num [reqPosScores]) ?_ (hval 9) (hval 10)
  intro it hit
  simp only [reqPosScores, List.mem_cons, List.not_mem_nil, or_false] at hit
  rcases hit with rfl | rfl | rfl <;>
    norm_num [score, maxEffortInBatch, clamp01, confidenceFactor, reqPosScores]

end ACE

namespace ACE

/-! ### Plan-totality lemmas -/

/-- Rank assignment does not change the entries' ids. -/
lemma assignRanks_map_id :
    ∀ (n : Nat) (l : List PlanEntry),
      (assignRanks n l).map PlanEntry.id = l.map PlanEntry.id := by
  intro n l
  induction l generalizing n with
  | nil => rfl
  | cons e es ih => simp [assignRanks, ih]

/-- The exchange loop preserves the partition of the walked list. -/
lemma exchangeLoop_perm {B b : ℚ} {L : List SI} :
    ∀ (n : Nat) (st : ExchangeState),
      (st.sel ++ (st.unsel.map Prod.fst) ++ st.out).Perm L →
      ((exchangeLoop B b n st).sel
        ++ ((exchangeLoop B b n st).unsel.map Prod.fst)
        ++ (exchangeLoop B b n st).out).Perm L := by
  intro n
  induction n with
  | zero => intro st h; exact h
  | succ k ih => intro st h; exact ih (exchangeStep B b st) (exchangeStep_perm h)

/-- The exchange result partitions the density-sorted free list. -/
lemma exchangeOf_perm (r : PrioritizationRequest) :
    ((exchangeOf r).sel ++ ((exchangeOf r).unsel.map Prod.fst)
      ++ (exchangeOf r).out).Perm (freeSorted r) := by
  refine exchangeLoop_perm _ _ ?_
  simpa using freeWalk_perm (effectiveBudget r) (ctxOf r).max_items
    (freeSorted r) (mandPass r).2 (mandSorted r).length

/-- The ids of the computed plan are a permutation of the input ids. -/
lemma computePlan_ids_perm (r : PrioritizationRequest) :
    (((computePlan r).plan.map PlanEntry.id)).Perm (r.items.map Item.id) := by
  rw [List.perm_iff_count]
  intro a
  -- component permutations, at the id level
  have hex : (((exchangeOf r).sel ++ ((exchangeOf r).unsel.map Prod.fst)
      ++ (exchangeOf r).out).map (fun si => si.item.id)).Perm
        ((freeSorted r).map (fun si => si.item.id)) :=
    (exchangeOf_perm r).map _
  have hfreeS : ((freeSorted r).map (fun si => si.item.id)).Perm
      (((freePart r).map (toSI r.weights (maxEffortInBatch r.items))).map
        (fun si => si.item.id)) :=
    (List.perm_insertionSort FreeLE _).map _
  have hmandS : ((mandSorted r).map (fun si => si.item.id)).Perm
      (((mandPart r).map (toSI r.weights (maxEffortInBatch r.items))).map
        (fun si => si.item.id)) :=
    (List.perm_insertionSort ScoreLE _).map _
  have hpart1 : ((excludedPart r).map Item.id
      ++ (nonExcludedPart r).map Item.id).Perm (r.items.map Item.id) := by
    have := (List.filter_append_perm
      (fun it => (ctxOf r).excluded_ids.contains it.id) r.items).map Item.id
    simpa [excludedPart, nonExcludedPart] using this
  have hpart2 : ((mandPart r).map Item.id
      ++ (freePart r).map Item.id).Perm ((nonExcludedPart r).map Item.id) := by
    have := (List.filter_append_perm
      (fun it => (ctxOf r).mandatory_ids.contains it.id)
      (nonExcludedPart r)).map Item.id
    simpa [mandPart, freePart] using this
  -- the three sorted entry blocks of the plan, at the id level
  have hsel : (((List.insertionSort EntryLE
      ((mandPass r).1.map (fun p => mkEntry true p.2 p.1)
        ++ (exchangeOf r).sel.map (mkEntry true "selected"))).map
          PlanEntry.id)).Perm
      (((mandPass r).1.map (fun p => mkEntry true p.2 p.1)
        ++ (exchangeOf r).sel.map (mkEntry true "selected")).map
          PlanEntry.id) :=
    (List.perm_insertionSort EntryLE _).map _
  have hunsel : (((List.insertionSort EntryLE
      ((exchangeOf r).unsel.map (fun p => mkEntry false p.2 p.1)
        ++ (exchangeOf r).out.map (mkEntry false "budget_exceeded"))).map
          PlanEntry.id)).Perm
      (((exchangeOf r).unsel.map (fun p => mkEntry false p.2 p.1)
        ++ (exchangeOf r).out.map (mkEntry false "budget_exceeded")).map
          PlanEntry.id) :=
    (List.perm_insertionSort EntryLE _).map _
  have hexcl : (((List.insertionSort EntryLE
      ((excludedPart r).map mkExcludedEntry)).map PlanEntry.id)).Perm
      (((excludedPart r).map mkExcludedEntry).map PlanEntry.id) :=
    (List.perm_insertionSort EntryLE _).map _
  -- turn every permutation into a count equation and finish by arithmetic
  have c1 := hex.count_eq a
  have c2 := hfreeS.count_eq a
  have c3 := hmandS.count_eq a
  have c4 := hpart1.count_eq a
  have c5 := hpart2.count_eq a
  have c6 := hsel.count_eq a
  have c7 := hunsel.count_eq a
  have c8 := hexcl.count_eq a
  have hmandfst := mandatoryPass_map_fst (effectiveBudget r) (mandSorted r) 0
  show List.count a ((computePlan r).plan.map PlanEntry.id) = _
  simp only [computePlan]
  rw [assignRanks_map_id]
  simp only [List.map_append, List.count_append] at *
  rw [c6, c7, c8]
  simp only [List.map_map, List.count_append] at *
  have hid1 : ((mandPass r).1.map (PlanEntry.id ∘ fun p => mkEntry true p.2 p.1))
      = ((mandPass r).1.map Prod.fst).map (fun si => si.item.id) := by
    simp [Function.comp, mkEntry, List.map_map]
  have hid2 : ((exchangeOf r).unsel.map
        (PlanEntry.id ∘ fun p => mkEntry false p.2 p.1))
      = ((exchangeOf r).unsel.map Prod.fst).map (fun si => si.item.id) := by
    simp [Function.comp, mkEntry, List.map_map]
  have hid3 : ((exchangeOf r).sel.map (PlanEntry.id ∘ mkEntry true "selected"))
      = (exchangeOf r).sel.map (fun si => si.item.id) := by
    simp [Function.comp, mkEntry]
  have hid4 : ((exchangeOf r).out.map
        (PlanEntry.id ∘ mkEntry false "budget_exceeded"))
      = (exchangeOf r).out.map (fun si => si.item.id) := by
    simp [Function.comp, mkEntry]
  have hid5 : ((excludedPart r).map (PlanEntry.id ∘ mkExcludedEntry))
      = (excludedPart r).map Item.id := by
    simp [Function.comp, mkExcludedEntry]
  rw [hid1, hid2, hid3, hid4, hid5]
  have hmandfst2 : ((mandPass r).1.map Prod.fst) = mandSorted r := by
    rw [mandPass]; exact mandatoryPass_map_fst _ _ _
  rw [hmandfst2]
  have hid6 : ∀ (l : List Item),
      l.map ((fun si => si.item.id) ∘ toSI r.weights (maxEffortInBatch r.items))
        = l.map Item.id := by
    intro l; simp [Function.comp, toSI]
  rw [hid6] at c2
  rw [hid6] at c3
  simp only [List.map_map] at c1 ⊢
  omega

end ACE

namespace ACE

/-- Rank assignment keeps each entry, only changing its rank. -/
lemma assignRanks_mem :
    ∀ (n : Nat) (l : List PlanEntry) (e : PlanEntry), e ∈ l →
      ∃ k, { e with rank := k } ∈ assignRanks n l := by
  intro n l
  induction l generalizing n with
  | nil => intro e he; cases he
  | cons x t ih =>
    intro e he
    rcases List.mem_cons.1 he with rfl | het
    · exact ⟨n, List.mem_cons_self _ _⟩
    · obtain ⟨k, hk⟩ := ih (n + 1) e het
      exact ⟨k, List.mem_cons_of_mem _ hk⟩

/-- Rank assignment preserves the plan length. -/
lemma assignRanks_length (n : Nat) (l : List PlanEntry) :
    (assignRanks n l).length = l.length := by
  have := assignRanks_map_id n l
  have h1 := congrArg List.length this
  simpa using h1

/-- Claim C2: for every valid prioritization request the plan is total:
`len(plan) = len(items)` and every input id appears exactly once — the plan
orders all items, not only the selected ones. -/
theorem claim_C2_totality (r : PrioritizationRequest)
    (resp : PrioritizationResponse) (h : prioritize r = .ok resp) :
    resp.plan.length = r.items.length ∧
      ∀ id ∈ r.items.map Item.id, (resp.plan.map PlanEntry.id).count id = 1 := by
  obtain ⟨⟨_, _, _, hnd⟩, hresp⟩ := prioritize_ok_inv h
  subst hresp
  have hperm := computePlan_ids_perm r
  constructor
  · have := hperm.length_eq
    simpa using this
  · intro id hid
    rw [hperm.count_eq id]
    exact List.count_eq_one_of_mem hnd hid

/-- Claim C2, witness at the Scenario A request. -/
theorem claim_C2_totality_witness :
    (computePlan reqA).plan.length = reqA.items.length ∧
      ((computePlan reqA).plan.map PlanEntry.id).count "a" = 1 := by
  have hval : prioritize reqA = .ok (computePlan reqA) := by
    norm_num [prioritize, reqA, itemA, itemB, dupFree,
      show ("a" : String) ≠ "b" from by decide]
  exact ⟨(claim_C2_totality reqA _ hval).1,
    (claim_C2_totality reqA _ hval).2 "a" (by simp [reqA, itemA])⟩

/-- Claim C1, amended: whenever the summary budget is nonnegative and no
plan entry is flagged `mandatory_over_budget`, the summary satisfies
`effort_selected ≤ budget`; and every valid request satisfies
`items_selected ≤ items_total`. -/
theorem claim_C1_amended :
    (∀ (r : PrioritizationRequest) (resp : PrioritizationResponse),
      prioritize r = .ok resp → 0 ≤ resp.summary.budget →
      (∀ e ∈ resp.plan, e.selection_reason ≠ "mandatory_over_budget") →
      resp.summary.effort_selected ≤ resp.summary.budget) ∧
    (∀ (r : PrioritizationRequest) (resp : PrioritizationResponse),
      prioritize r = .ok resp →
      resp.summary.items_selected ≤ resp.summary.items_total) := by
  constructor
  · intro r resp h hb hflag
    obtain ⟨_, hresp⟩ := prioritize_ok_inv h
    subst hresp
    -- no mandatory item was flagged in the pre-pass
    have hnoflag : ∀ p ∈ (mandPass r).1, p.2 ≠ "mandatory_over_budget" := by
      intro p hp hcon
      have hentry : mkEntry true p.2 p.1 ∈
          List.insertionSort EntryLE
            ((mandPass r).1.map (fun q => mkEntry true q.2 q.1)
              ++ (exchangeOf r).sel.map (mkEntry true "selected")) := by
        rw [(List.perm_insertionSort EntryLE _).mem_iff]
        exact List.mem_append_left _ (List.mem_map.2 ⟨p, hp, rfl⟩)
      obtain ⟨k, hk⟩ := assignRanks_mem 1 _ (mkEntry true p.2 p.1)
        (List.mem_append_left _ (List.mem_append_left _ hentry))
      have := hflag _ hk
      simp [mkEntry] at this
      exact this hcon
    have hBr : 0 ≤ effectiveBudget r := hb
    have hmle : (mandPass r).2 ≤ effectiveBudget r := by
      rw [mandPass] at hnoflag ⊢
      exact mandatoryPass_le hnoflag hBr
    have hwalk : (walkOf r).2.2 ≤ effectiveBudget r := by
      rw [walkOf]
      exact freeWalk_effort_le hmle
    have hacc := freeWalk_effort_acc (effectiveBudget r) (ctxOf r).max_items
      (freeSorted r) (mandPass r).2 (mandSorted r).length
    show (mandPass r).2 + effortOf (exchangeOf r).sel ≤ effectiveBudget r
    rcases exchangeLoop_effort_cases (effectiveBudget r) (mandPass r).2
        (freeSorted r).length
        { sel := (walkOf r).1, unsel := (walkOf r).2.1, out := [] }
      with hc | hc
    · rw [exchangeOf, hc]
      simp only at hacc
      rw [walkOf] at hwalk ⊢
      simp only
      linarith
    · rw [exchangeOf]
      exact hc
  · intro r resp h
    obtain ⟨_, hresp⟩ := prioritize_ok_inv h
    subst hresp
    have hperm := computePlan_ids_perm r
    have hlen : (computePlan r).plan.length = r.items.length := by
      have := hperm.length_eq
      simpa using this
    show (mandPass r).1.length + (exchangeOf r).sel.length ≤ r.items.length
    rw [← hlen]
    show (mandPass r).1.length + (exchangeOf r).sel.length ≤
      (computePlan r).plan.length
    simp only [computePlan]
    rw [assignRanks_length]
    simp only [List.length_append,
      (List.perm_insertionSort EntryLE _).length_eq, List.length_map]
    omega

/-- Claim C1, amended, witness: at the Scenario A request the summary stays
within budget and selects no more than the total. -/
theorem claim_C1_amended_witness :
    (computePlan reqA).summary.effort_selected ≤
        (computePlan reqA).summary.budget ∧
      (computePlan reqA).summary.items_selected ≤
        (computePlan reqA).summary.items_total := by
  have hval : prioritize reqA = .ok (computePlan reqA) := by
    norm_num [prioritize, reqA, itemA, itemB, dupFree,
      show ("a" : String) ≠ "b" from by decide]
  have hplan : (computePlan reqA).plan.map (fun e => e.selection_reason) =
      ["selected", "budget_exceeded"] := by
    norm_num [reqA, itemA, itemB, computePlan, ctxOf,
      effectiveBudget, maxEffortInBatch, excludedPart, nonExcludedPart,
      mandPart, freePart, mandSorted, mandPass, freeSorted, walkOf, exchangeOf,
      List.insertionSort,
      List.orderedInsert, toSI, score, clamp01, confidenceFactor, FreeLE,
      ScoreLE, EntryLE, tripleLe, pairLe, mandatoryPass, freeWalk, capReached,
      exchangeLoop, exchangeStep, minSel, pickCand, effortOf, mkEntry,
      mkExcludedEntry, assignRanks, List.find?, List.filter, List.contains,
      List.erase, show ("a" : String) ≠ "b" from by decide]
  have hflag : ∀ e ∈ (computePlan reqA).plan,
      e.selection_reason ≠ "mandatory_over_budget" := by
    intro e he
    have hmem : e.selection_reason ∈
        (computePlan reqA).plan.map (fun x => x.selection_reason) :=
      List.mem_map_of_mem _ he
    rw [hplan] at hmem
    simp only [List.mem_cons, List.not_mem_nil, or_false] at hmem
    rcases hmem with h | h <;> rw [h] <;> decide
  have hb : (0 : ℚ) ≤ (computePlan reqA).summary.budget := by
    show (0 : ℚ) ≤ effectiveBudget reqA
    norm_num [effectiveBudget, reqA]
  exact ⟨claim_C1_amended.1 reqA _ hval hb hflag,
    claim_C1_amended.2 reqA _ hval⟩

end ACE

namespace ACE

/-- Members of the mandatory sorted list wrap mandatory items. -/
lemma mandSorted_mem {r : PrioritizationRequest} {si : SI}
    (h : si ∈ mandSorted r) :
    ∃ it ∈ mandPart r, si = toSI r.weights (maxEffortInBatch r.items) it := by
  have := (List.perm_insertionSort ScoreLE _).subset h
  obtain ⟨it, hit, rfl⟩ := List.mem_map.1 this
  exact ⟨it, hit, rfl⟩

/-- Mandatory items are input items. -/
lemma mandPart_sub {r : PrioritizationRequest} {it : Item}
    (h : it ∈ mandPart r) : it ∈ r.items :=
  List.mem_of_mem_filter (List.mem_of_mem_filter h)

/-- Claim C5: a mandatory item whose individual effort exceeds the budget is
still selected and flagged `"mandatory_over_budget"` — no error is thrown —
and the summary then reports `effort_selected` greater than the budget. -/
theorem claim_C5_mandatory_over_budget (r : PrioritizationRequest)
    (resp : PrioritizationResponse) (x : Item)
    (h : prioritize r = .ok resp) (hx : x ∈ r.items)
    (hmand : (ctxOf r).mandatory_ids.contains x.id = true)
    (hexcl : (ctxOf r).excluded_ids.contains x.id = false)
    (hB : resp.summary.budget < x.effort) :
    (resp.plan.any fun e => e.id == x.id && e.selected &&
        (e.selection_reason == "mandatory_over_budget")) = true ∧
      resp.summary.budget < resp.summary.effort_selected := by
  obtain ⟨⟨hpos, _, _, _⟩, hresp⟩ := prioritize_ok_inv h
  subst hresp
  have hBr : effectiveBudget r < x.effort := hB
  -- x sits in the mandatory partition
  have hxmand : x ∈ mandPart r := by
    rw [mandPart, List.mem_filter]
    refine ⟨?_, hmand⟩
    rw [nonExcludedPart, List.mem_filter]
    exact ⟨hx, by rw [hexcl]; rfl⟩
  have hxsorted : toSI r.weights (maxEffortInBatch r.items) x ∈ mandSorted r := by
    rw [mandSorted, (List.perm_insertionSort ScoreLE _).mem_iff]
    exact List.mem_map.2 ⟨x, hxmand, rfl⟩
  have hsortedpos : ∀ si ∈ mandSorted r, 0 < si.item.effort := by
    intro si hsi
    obtain ⟨it, hit, rfl⟩ := mandSorted_mem hsi
    exact hpos it (mandPart_sub hit)
  -- the mandatory pre-pass flags x
  have hflagged : (toSI r.weights (maxEffortInBatch r.items) x,
      "mandatory_over_budget") ∈ (mandPass r).1 := by
    rw [mandPass]
    exact mandatoryPass_flag (le_refl 0) hsortedpos _ hxsorted hBr
  constructor
  · -- the flagged entry survives into the plan
    have hentry : mkEntry true "mandatory_over_budget"
        (toSI r.weights (maxEffortInBatch r.items) x) ∈
        List.insertionSort EntryLE
          ((mandPass r).1.map (fun q => mkEntry true q.2 q.1)
            ++ (exchangeOf r).sel.map (mkEntry true "selected")) := by
      rw [(List.perm_insertionSort EntryLE _).mem_iff]
      exact List.mem_append_left _ (List.mem_map.2 ⟨_, hflagged, rfl⟩)
    obtain ⟨k, hk⟩ := assignRanks_mem 1 _ _
      (List.mem_append_left _ (List.mem_append_left _ hentry))
    refine List.any_eq_true.2 ⟨_, hk, ?_⟩
    simp [mkEntry, toSI]
  · -- the summary effort exceeds the budget
    show effectiveBudget r < (mandPass r).2 + effortOf (exchangeOf r).sel
    have hm2 : (mandPass r).2 = effortOf (mandSorted r) := by
      rw [mandPass, mandatoryPass_effort]
      ring
    have hxe : x.effort ≤ effortOf (mandSorted r) := by
      have := effort_le_effortOf hxsorted hsortedpos
      simpa [toSI] using this
    have hse : 0 ≤ effortOf (exchangeOf r).sel := by
      apply effortOf_nonneg
      intro si hsi
      have hmem : si ∈ freeSorted r := by
        refine ((exchangeOf_perm r).mem_iff).1 ?_
        simp [hsi]
      have := (List.perm_insertionSort FreeLE _).subset hmem
      obtain ⟨it, hit, rfl⟩ := List.mem_map.1 this
      exact hpos it (List.mem_of_mem_filter (List.mem_of_mem_filter hit))
    linarith

/-- Claim C5, witness at the Scenario D request: the effort-500 mandatory
item is selected and flagged with budget 100. -/
theorem claim_C5_mandatory_over_budget_witness :
    ((computePlan reqScenarioD).plan.any fun e =>
        e.id == ("x" : String) && e.selected &&
          (e.selection_reason == "mandatory_over_budget")) = true ∧
      (computePlan reqScenarioD).summary.budget <
        (computePlan reqScenarioD).summary.effort_selected := by
  have hval : prioritize reqScenarioD = .ok (computePlan reqScenarioD) := by
    norm_num [prioritize, reqScenarioD, dupFree]
  have happ := claim_C5_mandatory_over_budget reqScenarioD _
    { id := "x", risk := 1/2, effort := 500 } hval
    (by simp [reqScenarioD]) (by simp [ctxOf, reqScenarioD, List.contains])
    (by simp [ctxOf, reqScenarioD, List.contains])
    (by show effectiveBudget reqScenarioD < _
        norm_num [effectiveBudget, reqScenarioD])
  simpa using happ

end ACE
